import Mathlib

/-
Verification development for the client-side streaming chat protocol of
powere.ch (apps/web/src/components/AIGuide.tsx, with a second widget variant
embedded in apps/web/src/lib/units.ts).

Part 1 embeds the SSE client parser `createSSEStream`: the incremental
buffer, CRLF normalization, blank-line framing, per-block line scanning
(`event:` / `data:` prefixes), and the JSON-or-raw payload policy.

Text is modelled as `List Char`.  `JSON.parse` is modelled as an arbitrary
function `jp : String → Option JValue` (the code's behaviour is uniform in
the JSON parser: success delivers the parsed value, failure delivers
`{raw: <text>}`).  JavaScript's `trim` is modelled over the common
whitespace characters and `toLowerCase` over ASCII; event names and
payloads in this protocol are ASCII.
-/

namespace AIGuide

/-- JSON values as produced by `JSON.parse`. -/
inductive JValue where
  | null
  | bool (b : Bool)
  | num (n : Int)
  | str (s : String)
  | arr (elems : List JValue)
  | obj (fields : List (String × JValue))

/-- An SSE event as delivered to the `onEvent` callback: event name and payload. -/
abbrev SSEEvent := String × JValue

/-- Whitespace recognised by the model of JavaScript `String.prototype.trim`. -/
def isJsWs (c : Char) : Bool :=
  c == ' ' || c == '\t' || c == '\n' || c == '\r' ||
  c == '\x0b' || c == '\x0c'

/-- Model of JavaScript `trim`: strip whitespace from both ends. -/
def trimChars (l : List Char) : List Char :=
  ((l.dropWhile isJsWs).reverse.dropWhile isJsWs).reverse

/-- Model of JavaScript `toLowerCase` (ASCII letters). -/
def lowerChars (l : List Char) : List Char :=
  l.map Char.toLower

/-- Boolean test that `p` is an initial segment of `l`
(JavaScript `String.prototype.startsWith`). -/
def isPre : List Char → List Char → Bool
  | [], _ => true
  | _, [] => false
  | p :: ps, c :: cs => p == c && isPre ps cs

/-- The characters of the line head `event:`. -/
def evColon : List Char := "event:".toList

/-- The characters of the line head `data:`. -/
def dataColon : List Char := "data:".toList

/-- Model of `buf.replace(/\r\n/g, "\n")`: left-to-right single pass,
replacing each CRLF pair by LF without rescanning the replacement. -/
def normalizeCRLF : List Char → List Char
  | [] => []
  | [c] => [c]
  | c1 :: c2 :: rest =>
    if c1 = '\r' ∧ c2 = '\n' then '\n' :: normalizeCRLF rest
    else c1 :: normalizeCRLF (c2 :: rest)

/-- Model of `buf.indexOf("\n\n")` together with the two `slice` calls:
returns the text before the first blank-line separator and the text after
it, or `none` when no separator occurs. -/
def splitFirst2NL : List Char → Option (List Char × List Char)
  | [] => none
  | [_] => none
  | c1 :: c2 :: rest =>
    if c1 = '\n' ∧ c2 = '\n' then some ([], rest)
    else
      match splitFirst2NL (c2 :: rest) with
      | some (b, a) => some (c1 :: b, a)
      | none => none

/-- Model of `block.split("\n")`. -/
def splitNl : List Char → List (List Char)
  | [] => [[]]
  | c :: rest =>
    if c = '\n' then [] :: splitNl rest
    else
      let ls := splitNl rest
      (c :: ls.headI) :: ls.tail

/-- One iteration of the per-block line loop: an `event:` line replaces the
pending event name by `line.slice(6).trim().toLowerCase()`; a `data:` line
appends `line.slice(5).trim()` to the collected data lines. -/
def lineStep (acc : List Char × List (List Char)) (line : List Char) :
    List Char × List (List Char) :=
  if isPre evColon line then (lowerChars (trimChars (line.drop 6)), acc.2)
  else if isPre dataColon line then (acc.1, acc.2 ++ [trimChars (line.drop 5)])
  else acc

/-- The per-block scan: fold the line loop over all lines of a block,
starting from the default event name `message` and no data lines. -/
def blockScan (lines : List (List Char)) : List Char × List (List Char) :=
  lines.foldl lineStep ("message".toList, [])

/-- Payload policy: `JSON.parse(dataStr)` on success, `{raw: dataStr}` when
parsing throws. -/
def jsonOrRaw (jp : String → Option JValue) (s : String) : JValue :=
  match jp s with
  | some v => v
  | none => .obj [("raw", .str s)]

/-- Processing of one framed block: split into lines, scan them, and if at
least one `data:` line was collected, emit one event whose payload is the
data lines joined with newlines, parsed as JSON or wrapped as raw text.
Blocks without `data:` lines produce no event. -/
def handleBlock (jp : String → Option JValue) (block : List Char) :
    Option SSEEvent :=
  let scan := blockScan (splitNl block)
  if scan.2.isEmpty then none
  else some (String.mk scan.1, jsonOrRaw jp (String.mk (List.intercalate ['\n'] scan.2)))

/-- Fuelled version of the inner block-extraction loop.  Each iteration
discards at least the two separator characters, so any fuel of at least the
buffer length is enough; the fuel only makes the recursion structural. -/
def sseLoopF (jp : String → Option JValue) : Nat → List Char → List Char × List SSEEvent
  | 0, l => (l, [])
  | fuel + 1, l =>
    match splitFirst2NL l with
    | none => (l, [])
    | some (b, r) =>
      let rest := sseLoopF jp fuel r
      (rest.1,
        match handleBlock jp b with
        | some e => e :: rest.2
        | none => rest.2)

/-- The inner `while ((idx = buf.indexOf("\n\n")) !== -1)` loop of
`createSSEStream`: repeatedly strip the first framed block from the buffer
and emit its event (when it has one); return the final leftover buffer and
the emitted events in order. -/
def sseLoop (jp : String → Option JValue) (l : List Char) :
    List Char × List SSEEvent :=
  sseLoopF jp l.length l

/-- One `reader.read()` iteration of `createSSEStream`: append the chunk to
the accumulated buffer, normalize CRLF over the whole buffer, then run the
block-extraction loop. -/
def sseFeed (jp : String → Option JValue) (buf chunk : List Char) :
    List Char × List SSEEvent :=
  sseLoop jp (normalizeCRLF (buf ++ chunk))

/-- The full read loop of `createSSEStream` over a given division of the
response bytes into chunks: returns the final leftover buffer and all
emitted events in order. -/
def sseRun (jp : String → Option JValue) (buf : List Char) :
    List (List Char) → List Char × List SSEEvent
  | [] => (buf, [])
  | c :: cs =>
    let fed := sseFeed jp buf c
    let rest := sseRun jp fed.1 cs
    (rest.1, fed.2 ++ rest.2)

/-- A well-formed SSE line: nonempty and free of line terminators. -/
def wfLine (l : List Char) : Bool :=
  !l.isEmpty && l.all (fun c => !(c == '\n') && !(c == '\r'))

/-- Whether a block has at least one `data:` line. -/
def hasDataLine (lines : List (List Char)) : Bool :=
  lines.any (fun l => isPre dataColon l)

/-- A well-formed SSE block, given as its list of lines: nonempty, every
line well formed, and at least one `data:` line (blocks without data lines
are skipped by the parser and emit nothing). -/
def wfBlock (lines : List (List Char)) : Bool :=
  !lines.isEmpty && lines.all wfLine && hasDataLine lines

/-- Join lines with single newlines. -/
def joinNl : List (List Char) → List Char
  | [] => []
  | [l] => l
  | l :: ls => l ++ '\n' :: joinNl ls

/-- The wire form of a block: its lines joined by newlines, followed by the
blank-line separator. -/
def serializeBlock (lines : List (List Char)) : List Char :=
  joinNl lines ++ ['\n', '\n']

/-- The wire form of a sequence of blocks. -/
def serializeBlocks (bs : List (List (List Char))) : List Char :=
  (bs.map serializeBlock).flatten

/-- Spec-side event name of a block (following the specification's words):
the text after the `event:` head of the last such line, whitespace-trimmed
and lowercased, or `message` when the block has no `event:` line. -/
def specEventName (lines : List (List Char)) : List Char :=
  match (lines.filter (fun l => isPre evColon l)).getLast? with
  | some l => lowerChars (trimChars (l.drop 6))
  | none => "message".toList

/-- Spec-side payload text of a block (following the specification's words):
the `data:` lines stripped of the head, trimmed, and joined with newlines. -/
def specDataText (lines : List (List Char)) : List Char :=
  List.intercalate ['\n']
    ((lines.filter (fun l => isPre dataColon l)).map (fun l => trimChars (l.drop 5)))

/-- The event emitted for one well-formed block. -/
def blockEvt (jp : String → Option JValue) (lines : List (List Char)) : SSEEvent :=
  (String.mk (blockScan lines).1,
    jsonOrRaw jp (String.mk (List.intercalate ['\n'] (blockScan lines).2)))

/-- Digits to a natural number, most significant first. -/
def digitsToNat (cs : List Char) : Nat :=
  cs.foldl (fun acc c => acc * 10 + (c.toNat - 48)) 0

/-- A small concrete JSON reader used to exercise the parser model on closed
inputs: it accepts the JSON literals null, true, false, unsigned integers
and escape-free string literals, and rejects everything else.  The theorems
about the parser hold for every function of this type; this one only
instantiates them in witnesses. -/
def jsonLit (s : String) : Option JValue :=
  let cs := s.toList
  if s = "null" then some JValue.null
  else if s = "true" then some (JValue.bool true)
  else if s = "false" then some (JValue.bool false)
  else if !cs.isEmpty && cs.all Char.isDigit then
    some (JValue.num (Int.ofNat (digitsToNat cs)))
  else if 2 ≤ cs.length && (cs.head? == some '"') && (cs.getLast? == some '"')
      && (cs.drop 1).dropLast.all (fun c => !(c == '"') && !(c == '\\')) then
    some (JValue.str (String.mk ((cs.drop 1).dropLast)))
  else none

/-
Part 2 embeds the orchestrator of `AIGuide` (the `send` closure, its SSE
event handler, the first-token watchdog and `abortAndFallback`, plus
`resetConversation` and the conversation-id persistence effect).

The turn is driven by a schedule of external happenings (`ExtEvent`): parsed
SSE events delivered before any abort, the expiries of the two watchdog
timers, and the settlement of the streaming promise.  The event loop
serializes all of these, so a turn is a fold of a step function over the
schedule.  Each fallback request's response handling is processed at
issuance (responses in issuance order).  The per-turn closure state
(`gotFirstToken`, the captured `conversationId`, the assistant index ref)
lives in `TurnCtx`; the observable protocol actions (abort requested,
fallback request issued, conversation id written) are recorded in a trace.

The component's event log is not modelled: its entries only carry
wall-clock timestamps and pretty-printed payloads and no claim concerns it.
-/

/-- Truthiness of a JSON value under JavaScript coercion. -/
def jsTruthy : JValue → Bool
  | .null => false
  | .bool b => b
  | .num n => !(n == 0)
  | .str s => !(s == "")
  | .arr _ => true
  | .obj _ => true

/-- Field access `data?.field`: only objects have fields; anything else
(including JSON null) yields undefined, modelled as `none`. -/
def jGet : JValue → String → Option JValue
  | .obj fields, k => fields.lookup k
  | _, _ => none

/-- Strict equality `===` between JSON values: structural on primitives;
`false` on arrays and objects, where JavaScript compares references and a
freshly parsed server value is never reference-equal to a stored one. -/
def jsStrictEq : JValue → JValue → Bool
  | .null, .null => true
  | .bool a, .bool b => a == b
  | .num a, .num b => a == b
  | .str a, .str b => a == b
  | _, _ => false

/-- `v !== conversationId` (negated): the stored id is a value or null. -/
def jsEqCid (v : JValue) : Option JValue → Bool
  | none => false
  | some w => jsStrictEq v w

/-- Message roles. -/
inductive Role where
  | user
  | assistant
deriving DecidableEq

/-- One chat message (`Msg` in the source). -/
structure Msg where
  role : Role
  content : String
  citations : Option JValue := none

/-- The component state touched by the orchestrator: reachability probe
result, stored conversation id (none = null), message list, input text,
loading flag, and the debug artifacts. -/
structure OrchState where
  apiOK : Option Bool
  conversationId : Option JValue
  messages : List Msg
  q : String
  loading : Bool
  lastCitations : JValue
  lastMeta : Option JValue

/-- Observable protocol actions of a turn, in order. -/
inductive TraceAction where
  | abortReq
  | fallbackReq
  | setCid (v : JValue)

/-- Whether an action is a fallback-request issuance. -/
def isFallbackReq : TraceAction → Bool
  | .fallbackReq => true
  | _ => false

/-- Whether an action is an abort request. -/
def isAbortReq : TraceAction → Bool
  | .abortReq => true
  | _ => false

/-- Whether an action is a conversation-id write. -/
def isSetCid : TraceAction → Bool
  | .setCid _ => true
  | _ => false

/-- Number of fallback requests recorded in a trace. -/
def countFallbacks (tr : List TraceAction) : Nat :=
  (tr.filter isFallbackReq).length

/-- Number of conversation-id writes recorded in a trace. -/
def countSetCid (tr : List TraceAction) : Nat :=
  (tr.filter isSetCid).length

/-- Per-turn closure state: the `conversationId` captured when `send` was
invoked, the assistant placeholder index (`assistantIdxRef`), the
`gotFirstToken` flag, whether the transport abort was requested, and how
many fallback requests were issued. -/
structure TurnCtx where
  turnStartCid : Option JValue
  assistantIdx : Nat
  gotFirstToken : Bool
  aborted : Bool
  fbCount : Nat

/-- The clamped message index
`Math.min(Math.max(assistantIdxRef.current, 0), next.length - 1)`
(indices are naturals here, so the max with 0 is implicit; for an empty
list both the source and the model leave the list unchanged). -/
def clampIdx (idx len : Nat) : Nat := min idx (len - 1)

/-- The token handler's message update: append the delta to the message at
the clamped index when that message exists and is an assistant message. -/
def applyDelta (idx : Nat) (delta : String) (msgs : List Msg) : List Msg :=
  let i := clampIdx idx msgs.length
  match msgs[i]? with
  | some m =>
    if m.role = .assistant then msgs.set i { m with content := m.content ++ delta }
    else msgs
  | none => msgs

/-- The fallback path's message update: replace the message at the clamped
index when it exists and is an assistant message. -/
def replaceAssistant (idx : Nat) (m' : Msg) (msgs : List Msg) : List Msg :=
  let i := clampIdx idx msgs.length
  match msgs[i]? with
  | some m => if m.role = .assistant then msgs.set i m' else msgs
  | none => msgs

/-- Model of JavaScript `trim` on strings. -/
def jsTrim (s : String) : String := String.mk (trimChars s.toList)

/-- `(data && typeof data.delta === "string") ? data.delta : ""`. -/
def deltaOf (data : JValue) : String :=
  match jGet data "delta" with
  | some (.str s) => s
  | _ => ""

/-- `x || []` on an optional field holding the candidate citation list. -/
def jsOrArr (v : Option JValue) : JValue :=
  match v with
  | some v => if jsTruthy v then v else .arr []
  | none => .arr []

/-- `x || null` on an optional field. -/
def jsOrNull (v : Option JValue) : Option JValue :=
  match v with
  | some v => if jsTruthy v then some v else none
  | none => none

/-- The conversation-id write guard shared by the `meta` handler and the
fallback handler: `if (x?.conversation_id && x.conversation_id !==
conversationId) setConversationId(x.conversation_id)`, where
`conversationId` is the closure-captured value from the start of the turn. -/
def cidWrite (c0 : Option JValue) (field : Option JValue) (st : OrchState) :
    OrchState × List TraceAction :=
  match field with
  | some v =>
    if jsTruthy v && !(jsEqCid v c0) then
      ({ st with conversationId := some v }, [TraceAction.setCid v])
    else (st, [])
  | none => (st, [])

/-- The SSE event handler installed by `send` (the `onEvent` callback of
`createSSEStream`): `meta` may write the conversation id (compared against
the closure-captured id), the citation list and the debug metadata; `token`
appends a non-empty string delta and marks the turn alive; `done` may store
metadata and clears the loading flag; unknown events are only logged. -/
def onSSE (ctx : TurnCtx) (ev : String) (data : JValue) (st : OrchState) :
    OrchState × TurnCtx × List TraceAction :=
  if ev == "meta" then
    let withCid := cidWrite ctx.turnStartCid (jGet data "conversation_id") st
    let st2 :=
      match jGet data "citations" with
      | some (.arr xs) => { withCid.1 with lastCitations := .arr xs }
      | _ => withCid.1
    let st3 :=
      match jGet data "meta" with
      | some v => if jsTruthy v then { st2 with lastMeta := some v } else st2
      | none => st2
    (st3, ctx, withCid.2)
  else if ev == "token" then
    let delta := deltaOf data
    if delta == "" then (st, ctx, [])
    else
      ({ st with messages := applyDelta ctx.assistantIdx delta st.messages },
        { ctx with gotFirstToken := true }, [])
  else if ev == "done" then
    let st1 :=
      match jGet data "meta" with
      | some v => if jsTruthy v then { st with lastMeta := some v } else st
      | none => st
    ({ st1 with loading := false }, ctx, [])
  else (st, ctx, [])

/-- The non-streaming `/v1/chat` response: HTTP success flag, parsed JSON
body, and the `${status} ${statusText}` string used when the body has no
truthy `detail`.  (Bodies that fail JSON parsing are not modelled; no claim
exercises them.) -/
structure FbResponse where
  ok : Bool
  body : JValue
  statusText : String

/-- `String(x)` on the truthy `detail` passed to `new Error`: exact on
primitives; containers are approximated (no claim exercises them). -/
def jsMessageText : JValue → String
  | .str s => s
  | .num n => toString n
  | .bool b => if b then "true" else "false"
  | .null => "null"
  | .arr _ => ""
  | .obj _ => "[object Object]"

/-- The error message thrown for a non-success fallback response:
`data?.detail || `${r.status} ${r.statusText}``. -/
def errMsgOf (fb : FbResponse) : String :=
  match jGet fb.body "detail" with
  | some v => if jsTruthy v then jsMessageText v else fb.statusText
  | none => fb.statusText

/-- `e.message || String(e)`: an `Error` with empty message displays as its
default string form. -/
def errShown (msg : String) : String := if msg == "" then "Error" else msg

/-- The `try` block of `abortAndFallback` after the abort: throw on a
non-success status, otherwise write the conversation id (compared against
the closure-captured id), the citation list, the metadata, and replace the
assistant placeholder with the trimmed answer and its citations.
A truthy non-string `answer` (which would throw in JavaScript) is not
modelled; no claim exercises it. -/
def fallbackTry (ctx : TurnCtx) (fb : FbResponse) (st : OrchState) :
    Except String (OrchState × List TraceAction) :=
  if !fb.ok then .error (errMsgOf fb)
  else
    let withCid := cidWrite ctx.turnStartCid (jGet fb.body "conversation_id") st
    let st2 := { withCid.1 with
      lastCitations := jsOrArr (jGet fb.body "citations"),
      lastMeta := jsOrNull (jGet fb.body "meta") }
    let answer :=
      match jGet fb.body "answer" with
      | some (.str s) => s
      | _ => ""
    let st3 := { st2 with
      messages := (replaceAssistant ctx.assistantIdx
        { role := .assistant, content := jsTrim answer,
          citations := some (jsOrArr (jGet fb.body "citations")) } st2.messages) }
    .ok (st3, withCid.2)

/-- `abortAndFallback`: request the transport abort, issue the fallback
request, then either apply the successful response or catch the error and
replace the assistant placeholder with the inline `⚠ `-prefixed message; in
both cases clear the loading flag.  No error escapes this function. -/
def runFallback (ctx : TurnCtx) (fb : FbResponse) (st : OrchState) :
    OrchState × TurnCtx × List TraceAction :=
  let ctx1 := { ctx with aborted := true, fbCount := ctx.fbCount + 1 }
  match fallbackTry ctx fb st with
  | .ok (st', acts) =>
    ({ st' with loading := false }, ctx1,
      [TraceAction.abortReq, TraceAction.fallbackReq] ++ acts)
  | .error msg =>
    ({ st with
        messages := replaceAssistant ctx.assistantIdx
          { role := .assistant, content := "⚠ " ++ errShown msg, citations := none }
          st.messages,
        loading := false },
      ctx1, [TraceAction.abortReq, TraceAction.fallbackReq])

/-- External happenings driving one turn, in event-loop order: an SSE event
delivered by the transport, the first-token watchdog expiry, the hard-timer
expiry, and the settlement of the streaming promise (which is last). -/
inductive ExtEvent where
  | sse (ev : String) (data : JValue)
  | watchdogFire
  | hardFire
  | streamDone
  | streamError

/-- One event-loop step of a turn.  SSE events after the abort are not
delivered (the aborted read loop stops invoking the callback).  The
watchdog callback falls back only when `gotFirstToken` is still false.  A
stream rejection (`streamError`, also caused by the watchdog's own abort)
runs `abortAndFallback` from the `catch` of `await promise`. -/
def turnStep (fb : Nat → FbResponse) (s : OrchState × TurnCtx × List TraceAction)
    (e : ExtEvent) : OrchState × TurnCtx × List TraceAction :=
  match e with
  | .sse ev data =>
    if s.2.1.aborted then s
    else
      let r := onSSE s.2.1 ev data s.1
      (r.1, r.2.1, s.2.2 ++ r.2.2)
  | .watchdogFire =>
    if s.2.1.gotFirstToken then s
    else
      let r := runFallback s.2.1 (fb s.2.1.fbCount) s.1
      (r.1, r.2.1, s.2.2 ++ r.2.2)
  | .hardFire => ({ s.1 with loading := false }, s.2.1, s.2.2)
  | .streamDone => s
  | .streamError =>
    let r := runFallback s.2.1 (fb s.2.1.fbCount) s.1
    (r.1, r.2.1, s.2.2 ++ r.2.2)

/-- The `send` closure: guard (`!q.trim() || loading || apiOK === false`),
optimistic append of the user message and the empty assistant placeholder,
capture of the conversation id and the placeholder index, the fold of the
turn over the schedule, and the `finally` cleanup that clears the input.
Returns the final component state and the turn's action trace. -/
def send (fb : Nat → FbResponse) (sched : List ExtEvent) (st : OrchState) :
    OrchState × List TraceAction :=
  if jsTrim st.q == "" || st.loading || st.apiOK == some false then (st, [])
  else
    let st1 := { st with loading := true }
    let msgs := st1.messages ++
      [{ role := .user, content := st1.q }, { role := .assistant, content := "" }]
    let st2 := { st1 with messages := msgs }
    let ctx : TurnCtx :=
      { turnStartCid := st.conversationId, assistantIdx := msgs.length - 1,
        gotFirstToken := false, aborted := false, fbCount := 0 }
    let res := sched.foldl (turnStep fb) (st2, ctx, [])
    ({ res.1 with q := "" }, res.2.2)

/-- `resetConversation`: clear messages, debug artifacts, the conversation
id, and the input text. -/
def resetConversation (st : OrchState) : OrchState :=
  { st with
    messages := [], lastMeta := none, lastCitations := JValue.arr [],
    conversationId := none, q := "" }

/-- The persistence effect on `[conversationId]`: a truthy id is written to
durable storage under the fixed key, anything else removes the entry.  The
returned value is the storage entry after the effect runs. -/
def persistEffect (st : OrchState) : Option JValue :=
  match st.conversationId with
  | some v => if jsTruthy v then some v else none
  | none => none

/-- An inert SSE event — any event that is neither `meta` nor a `token`
carrying a non-empty string delta. -/
def InertEv (e : ExtEvent) : Prop :=
  ∃ n d, e = ExtEvent.sse n d ∧
    ((n ≠ "token" ∧ n ≠ "meta") ∨ (n = "token" ∧ deltaOf d = ""))

/-- The overloaded fallback response of Scenario C: HTTP 500 with body
`detail: overloaded`. -/
def fbOverloaded : FbResponse :=
  { ok := false, body := JValue.obj [("detail", JValue.str "overloaded")],
    statusText := "500 Internal Server Error" }

/-- Effect of one recorded action on the stored conversation id. -/
def cidUpd (c : Option JValue) : TraceAction → Option JValue
  | TraceAction.setCid v => some v
  | _ => c

/-- The stored conversation id after replaying a trace from an initial id. -/
def cidAfter (c0 : Option JValue) : List TraceAction → Option JValue
  | [] => c0
  | a :: rest => cidAfter (cidUpd c0 a) rest

/-- Turn invariant for the conversation id: the context still carries the
turn-start id, the stored id is the replay of the recorded writes, and
every recorded write is truthy and differs from the turn-start id. -/
def CidInv (c0 : Option JValue) (s : OrchState × TurnCtx × List TraceAction) : Prop :=
  s.2.1.turnStartCid = c0
  ∧ s.1.conversationId = cidAfter c0 s.2.2
  ∧ ∀ v, TraceAction.setCid v ∈ s.2.2 → jsTruthy v = true ∧ jsEqCid v c0 = false

/-- Decomposition produced by a successful separator search. -/
theorem splitFirst2NL_shape :
    ∀ l b r, splitFirst2NL l = some (b, r) → l = b ++ '\n' :: '\n' :: r := by
  intro l
  induction l with
  | nil => intro b r h; simp [splitFirst2NL] at h
  | cons c rest ih =>
    intro b r h
    cases rest with
    | nil => simp [splitFirst2NL] at h
    | cons c2 rest' =>
      rw [splitFirst2NL] at h
      by_cases hnn : c = '\n' ∧ c2 = '\n'
      · rw [if_pos hnn] at h
        simp only [Option.some.injEq, Prod.mk.injEq] at h
        obtain ⟨hb, hr⟩ := h
        subst hb; subst hr
        simp [hnn.1, hnn.2]
      · rw [if_neg hnn] at h
        cases hsp : splitFirst2NL (c2 :: rest') with
        | none => rw [hsp] at h; simp at h
        | some p =>
          obtain ⟨b', a'⟩ := p
          rw [hsp] at h
          simp only [Option.some.injEq, Prod.mk.injEq] at h
          obtain ⟨hb, hr⟩ := h
          subst hb; subst hr
          have hrec := ih b' a' hsp
          simp [hrec]

/-- A successful separator search strictly shrinks the remaining buffer. -/
theorem splitFirst2NL_length {l b r : List Char}
    (h : splitFirst2NL l = some (b, r)) : r.length + 2 ≤ l.length := by
  have := splitFirst2NL_shape l b r h
  subst this
  simp [List.length_append]

/-- When the buffer holds no separator, the loop leaves it untouched and
emits nothing, whatever the fuel. -/
theorem sseLoopF_split_none (jp : String → Option JValue) {l : List Char}
    (h : splitFirst2NL l = none) : ∀ fuel, sseLoopF jp fuel l = (l, []) := by
  intro fuel
  cases fuel with
  | zero => rfl
  | succ n => rw [sseLoopF, h]

/-- Any two sufficient fuels compute the same loop result. -/
theorem sseLoopF_adequate (jp : String → Option JValue) :
    ∀ f1 f2 l, l.length ≤ f1 → l.length ≤ f2 →
      sseLoopF jp f1 l = sseLoopF jp f2 l := by
  intro f1
  induction f1 with
  | zero =>
    intro f2 l h1 _
    have : l = [] := List.eq_nil_of_length_eq_zero (Nat.le_zero.mp h1)
    subst this
    cases f2 with
    | zero => rfl
    | succ m =>
      exact (sseLoopF_split_none jp (show splitFirst2NL [] = none from rfl) (m + 1)).symm
  | succ n ih =>
    intro f2 l h1 h2
    cases hs : splitFirst2NL l with
    | none => rw [sseLoopF_split_none jp hs, sseLoopF_split_none jp hs]
    | some p =>
      obtain ⟨b, r⟩ := p
      have hlen := splitFirst2NL_length hs
      cases f2 with
      | zero =>
        exfalso
        have : l = [] := List.eq_nil_of_length_eq_zero (Nat.le_zero.mp h2)
        subst this
        simp [splitFirst2NL] at hs
      | succ m =>
        rw [sseLoopF, sseLoopF, hs]
        have hr1 : r.length ≤ n := by omega
        have hr2 : r.length ≤ m := by omega
        simp only [ih m r hr1 hr2]

/-- Unfolding of the loop when the buffer holds no separator. -/
theorem sseLoop_none (jp : String → Option JValue) {l : List Char}
    (h : splitFirst2NL l = none) : sseLoop jp l = (l, []) :=
  sseLoopF_split_none jp h l.length

/-- Unfolding of the loop when the buffer holds a separator: the first block
is processed and the loop continues on the remaining buffer. -/
theorem sseLoop_some (jp : String → Option JValue) {l b r : List Char}
    (h : splitFirst2NL l = some (b, r)) :
    sseLoop jp l = ((sseLoop jp r).1,
      match handleBlock jp b with
      | some e => e :: (sseLoop jp r).2
      | none => (sseLoop jp r).2) := by
  have hlen := splitFirst2NL_length h
  rw [sseLoop, sseLoop]
  cases hl : l.length with
  | zero =>
    exfalso
    omega
  | succ n =>
    rw [sseLoopF, h]
    have hr : r.length ≤ n := by omega
    simp only [sseLoopF_adequate jp n r.length r hr (Nat.le_refl _)]

/-- CRLF normalization is the identity on CR-free text. -/
theorem normalizeCRLF_noCR : ∀ l : List Char, '\r' ∉ l → normalizeCRLF l = l := by
  intro l
  induction l with
  | nil => intro _; rfl
  | cons c rest ih =>
    intro h
    cases rest with
    | nil => rfl
    | cons c2 rest' =>
      rw [normalizeCRLF]
      have hc : ¬(c = '\r' ∧ c2 = '\n') := by
        intro hand
        exact h (by rw [hand.1]; exact List.mem_cons_self _ _)
      rw [if_neg hc, ih (fun hm => h (List.mem_cons_of_mem c hm))]

/-- Appending text on the right does not change where the first separator
occurs. -/
theorem splitFirst2NL_append_some :
    ∀ (a : List Char) {b r : List Char} (t : List Char),
      splitFirst2NL a = some (b, r) →
      splitFirst2NL (a ++ t) = some (b, r ++ t) := by
  intro a
  induction a with
  | nil => intro b r t h; simp [splitFirst2NL] at h
  | cons c rest ih =>
    intro b r t h
    cases rest with
    | nil => simp [splitFirst2NL] at h
    | cons c2 rest' =>
      rw [splitFirst2NL] at h
      by_cases hnn : c = '\n' ∧ c2 = '\n'
      · rw [if_pos hnn] at h
        simp only [Option.some.injEq, Prod.mk.injEq] at h
        obtain ⟨hb, hr⟩ := h
        subst hb; subst hr
        show splitFirst2NL (c :: c2 :: (rest' ++ t)) = _
        rw [splitFirst2NL, if_pos hnn]
      · rw [if_neg hnn] at h
        cases hsp : splitFirst2NL (c2 :: rest') with
        | none => rw [hsp] at h; simp at h
        | some p =>
          obtain ⟨b', a'⟩ := p
          rw [hsp] at h
          simp only [Option.some.injEq, Prod.mk.injEq] at h
          obtain ⟨hb, hr⟩ := h
          subst hb; subst hr
          have hrec := ih t hsp
          show splitFirst2NL (c :: c2 :: (rest' ++ t)) = _
          rw [splitFirst2NL, if_neg hnn]
          rw [show (c2 :: rest') ++ t = c2 :: (rest' ++ t) from rfl] at hrec
          rw [hrec]

/-- Splitting the input into a processed part and a remainder: the loop over
the concatenation first yields the events of the processed part, then the
events of its leftover joined with the remainder. -/
theorem sseLoop_append (jp : String → Option JValue) (a t : List Char) :
    sseLoop jp (a ++ t) =
      ((sseLoop jp ((sseLoop jp a).1 ++ t)).1,
        (sseLoop jp a).2 ++ (sseLoop jp ((sseLoop jp a).1 ++ t)).2) := by
  have key : ∀ n (a t : List Char), a.length ≤ n →
      sseLoop jp (a ++ t) =
        ((sseLoop jp ((sseLoop jp a).1 ++ t)).1,
          (sseLoop jp a).2 ++ (sseLoop jp ((sseLoop jp a).1 ++ t)).2) := by
    intro n
    induction n using Nat.strong_induction_on with
    | _ n ih =>
      intro a t hlen
      cases hs : splitFirst2NL a with
      | none =>
        rw [sseLoop_none jp hs]
        simp
      | some p =>
        obtain ⟨b, r⟩ := p
        have h2 := splitFirst2NL_append_some a t hs
        have hlen2 := splitFirst2NL_length hs
        have hrec := ih r.length (by omega) r t (Nat.le_refl _)
        rw [sseLoop_some jp hs, sseLoop_some jp h2, hrec]
        cases hb : handleBlock jp b <;> simp [hb]
  exact key a.length a t (Nat.le_refl _)

/-- The leftover buffer of the loop holds no separator. -/
theorem sseLoop_leftover_none (jp : String → Option JValue) (l : List Char) :
    splitFirst2NL (sseLoop jp l).1 = none := by
  have key : ∀ n (l : List Char), l.length ≤ n →
      splitFirst2NL (sseLoop jp l).1 = none := by
    intro n
    induction n using Nat.strong_induction_on with
    | _ n ih =>
      intro l hlen
      cases hs : splitFirst2NL l with
      | none => rw [sseLoop_none jp hs]; exact hs
      | some p =>
        obtain ⟨b, r⟩ := p
        have hlen2 := splitFirst2NL_length hs
        rw [sseLoop_some jp hs]
        exact ih r.length (by omega) r (Nat.le_refl _)
  exact key l.length l (Nat.le_refl _)

/-- Every character of the leftover buffer comes from the input buffer. -/
theorem sseLoop_leftover_mem (jp : String → Option JValue) (l : List Char) :
    ∀ c, c ∈ (sseLoop jp l).1 → c ∈ l := by
  have key : ∀ n (l : List Char), l.length ≤ n →
      ∀ c, c ∈ (sseLoop jp l).1 → c ∈ l := by
    intro n
    induction n using Nat.strong_induction_on with
    | _ n ih =>
      intro l hlen c hc
      cases hs : splitFirst2NL l with
      | none => rw [sseLoop_none jp hs] at hc; exact hc
      | some p =>
        obtain ⟨b, r⟩ := p
        have hlen2 := splitFirst2NL_length hs
        rw [sseLoop_some jp hs] at hc
        have : c ∈ r := ih r.length (by omega) r (Nat.le_refl _) c hc
        rw [splitFirst2NL_shape l b r hs]
        simp [this]
  exact key l.length l (Nat.le_refl _)

/-- Chunking invariance at the level of the read loop: for CR-free input,
feeding the chunks one by one produces the same leftover and the same event
sequence as running the block-extraction loop on the whole concatenation,
whatever the chunk boundaries. -/
theorem sseRun_eq_join (jp : String → Option JValue) :
    ∀ (cs : List (List Char)) (buf : List Char),
      '\r' ∉ buf → '\r' ∉ cs.flatten → splitFirst2NL buf = none →
      sseRun jp buf cs = sseLoop jp (buf ++ cs.flatten) := by
  intro cs
  induction cs with
  | nil =>
    intro buf _ _ h3
    rw [sseRun]
    simp [sseLoop_none jp h3]
  | cons c cs ih =>
    intro buf h1 h2 h3
    have hc : '\r' ∉ c := fun hm =>
      h2 (by rw [List.flatten_cons]; exact List.mem_append.mpr (Or.inl hm))
    have hcs : '\r' ∉ cs.flatten := fun hm =>
      h2 (by rw [List.flatten_cons]; exact List.mem_append.mpr (Or.inr hm))
    have hbc : '\r' ∉ buf ++ c := by
      intro hm
      rcases List.mem_append.mp hm with hm | hm
      · exact h1 hm
      · exact hc hm
    have hfeed : sseFeed jp buf c = sseLoop jp (buf ++ c) := by
      rw [sseFeed, normalizeCRLF_noCR _ hbc]
    have hlf1 : '\r' ∉ (sseLoop jp (buf ++ c)).1 :=
      fun hm => hbc (sseLoop_leftover_mem jp (buf ++ c) '\r' hm)
    have hlf2 : splitFirst2NL (sseLoop jp (buf ++ c)).1 = none :=
      sseLoop_leftover_none jp (buf ++ c)
    rw [sseRun, hfeed, ih _ hlf1 hcs hlf2]
    rw [show buf ++ (c :: cs).flatten = (buf ++ c) ++ cs.flatten by
      rw [List.flatten_cons, List.append_assoc]]
    rw [sseLoop_append jp (buf ++ c) cs.flatten]

theorem wfLine_nonempty {l : List Char} (h : wfLine l = true) : l ≠ [] := by
  intro he
  subst he
  simp [wfLine] at h

theorem wfLine_noNl {l : List Char} (h : wfLine l = true) : ∀ c ∈ l, c ≠ '\n' := by
  intro c hc
  simp [wfLine, List.all_eq_true] at h
  exact (h.2 c hc).1

theorem wfLine_noCr {l : List Char} (h : wfLine l = true) : ∀ c ∈ l, c ≠ '\r' := by
  intro c hc
  simp [wfLine, List.all_eq_true] at h
  exact (h.2 c hc).2

theorem wfBlock_nonempty {lines : List (List Char)} (h : wfBlock lines = true) :
    lines ≠ [] := by
  intro he
  subst he
  simp [wfBlock, hasDataLine] at h

theorem wfBlock_lines {lines : List (List Char)} (h : wfBlock lines = true) :
    ∀ l ∈ lines, wfLine l = true := by
  intro l hl
  simp [wfBlock, List.all_eq_true] at h
  exact h.1.2 l hl

theorem wfBlock_data {lines : List (List Char)} (h : wfBlock lines = true) :
    ∃ l ∈ lines, isPre dataColon l = true := by
  simp [wfBlock, hasDataLine, List.any_eq_true] at h
  exact h.2

/-- A newline-free line followed by the separator is recognised as the first
block, with the remainder returned untouched. -/
theorem splitFirst2NL_line :
    ∀ (l : List Char), (∀ c ∈ l, c ≠ '\n') →
      ∀ s, splitFirst2NL (l ++ '\n' :: '\n' :: s) = some (l, s) := by
  intro l
  induction l with
  | nil =>
    intro _ s
    rw [List.nil_append, splitFirst2NL, if_pos ⟨rfl, rfl⟩]
  | cons c rest ih =>
    intro hl s
    have hc : c ≠ '\n' := hl c (List.mem_cons_self _ _)
    have hl' : ∀ x ∈ rest, x ≠ '\n' := fun x hm => hl x (List.mem_cons_of_mem _ hm)
    cases rest with
    | nil =>
      show splitFirst2NL (c :: '\n' :: '\n' :: s) = some ([c], s)
      rw [splitFirst2NL, if_neg (fun hand => hc hand.1)]
      rw [show splitFirst2NL ('\n' :: '\n' :: s) = some ([], s) from by
        rw [splitFirst2NL, if_pos ⟨rfl, rfl⟩]]
    | cons c2 rest' =>
      show splitFirst2NL (c :: c2 :: (rest' ++ '\n' :: '\n' :: s)) =
        some (c :: c2 :: rest', s)
      rw [splitFirst2NL, if_neg (fun hand => hc hand.1)]
      have ih' : splitFirst2NL (c2 :: (rest' ++ '\n' :: '\n' :: s)) =
          some (c2 :: rest', s) := ih hl' s
      rw [ih']

/-- A line cannot carry both the `event:` head and the `data:` head. -/
theorem isPre_ev_not_data (l : List Char) :
    isPre evColon l = true → isPre dataColon l = false := by
  intro h
  cases l with
  | nil => simp [isPre, evColon] at h
  | cons c cs =>
    simp only [evColon, dataColon] at *
    simp [isPre] at h ⊢
    intro hc
    exact absurd (hc.trans h.1.symm) (by decide)

/-- The data-line accumulator of the block scan collects exactly the
stripped, trimmed `data:` lines, in order. -/
theorem foldl_lineStep_snd (lines : List (List Char)) :
    ∀ e0 d0, (lines.foldl lineStep (e0, d0)).2 =
      d0 ++ (lines.filter (fun l => isPre dataColon l)).map (fun l => trimChars (l.drop 5)) := by
  induction lines with
  | nil => intro e0 d0; simp
  | cons line rest ih =>
    intro e0 d0
    by_cases hev : isPre evColon line
    · have hd := isPre_ev_not_data line hev
      simp only [List.foldl_cons, lineStep, hev, if_true, List.filter_cons, hd]
      simp [ih]
    · by_cases hdl : isPre dataColon line
      · simp only [List.foldl_cons, lineStep, hev, Bool.false_eq_true, if_false, hdl, if_true,
          List.filter_cons]
        simp [ih, hdl]
      · simp only [List.foldl_cons, lineStep, hev, hdl, Bool.false_eq_true, if_false,
          List.filter_cons]
        simp [ih, hdl]

/-- The event-name accumulator of the block scan is the normalised content
of the last `event:` line, or the initial name when there is none. -/
theorem foldl_lineStep_fst (lines : List (List Char)) :
    ∀ e0 d0, (lines.foldl lineStep (e0, d0)).1 =
      match (lines.filter (fun l => isPre evColon l)).getLast? with
      | some l => lowerChars (trimChars (l.drop 6))
      | none => e0 := by
  induction lines with
  | nil => intro e0 d0; simp
  | cons line rest ih =>
    intro e0 d0
    by_cases hev : isPre evColon line
    · simp only [List.foldl_cons, lineStep, hev, if_true, List.filter_cons,
        List.getLast?_cons]
      rw [ih]
      cases hl : (rest.filter (fun l => isPre evColon l)).getLast? with
      | none => simp [hl]
      | some l => simp [hl]
    · by_cases hdl : isPre dataColon line
      · simp only [List.foldl_cons, lineStep, hev, Bool.false_eq_true, if_false, hdl, if_true,
          List.filter_cons]
        exact ih e0 (d0 ++ [trimChars (line.drop 5)])
      · simp only [List.foldl_cons, lineStep, hev, hdl, Bool.false_eq_true, if_false,
          List.filter_cons]
        exact ih e0 d0

/-- The block scan computes the spec-side event name. -/
theorem blockScan_fst (lines : List (List Char)) :
    (blockScan lines).1 = specEventName lines := by
  rw [blockScan, foldl_lineStep_fst, specEventName]

/-- The block scan computes the spec-side data lines. -/
theorem blockScan_snd (lines : List (List Char)) :
    (blockScan lines).2 =
      (lines.filter (fun l => isPre dataColon l)).map (fun l => trimChars (l.drop 5)) := by
  rw [blockScan, foldl_lineStep_snd]
  simp

/-- Prepending a newline-free line (and its terminating newline) in front of
a buffer shifts the first separator by that line. -/
theorem splitFirst2NL_prepend_line :
    ∀ (l : List Char), (∀ c ∈ l, c ≠ '\n') →
      ∀ t b r, splitFirst2NL t = some (b, r) → t.head? ≠ some '\n' →
        splitFirst2NL (l ++ '\n' :: t) = some (l ++ '\n' :: b, r) := by
  intro l
  induction l with
  | nil =>
    intro _ t b r h hhead
    show splitFirst2NL ('\n' :: t) = some ('\n' :: b, r)
    cases t with
    | nil => simp [splitFirst2NL] at h
    | cons c t' =>
      have hc : c ≠ '\n' := by
        intro he
        exact hhead (by rw [he]; rfl)
      rw [splitFirst2NL, if_neg (fun hand => hc hand.2), h]
  | cons c l' ih =>
    intro hl t b r h hhead
    have hc : c ≠ '\n' := hl c (List.mem_cons_self _ _)
    have hl' : ∀ x ∈ l', x ≠ '\n' := fun x hm => hl x (List.mem_cons_of_mem _ hm)
    have ihr := ih hl' t b r h hhead
    cases l' with
    | nil =>
      show splitFirst2NL (c :: '\n' :: t) = some (c :: '\n' :: b, r)
      rw [splitFirst2NL, if_neg (fun hand => hc hand.1)]
      have ih' : splitFirst2NL ('\n' :: t) = some ('\n' :: b, r) := ihr
      rw [ih']
    | cons c2 l'' =>
      show splitFirst2NL (c :: c2 :: (l'' ++ '\n' :: t)) =
        some (c :: c2 :: (l'' ++ '\n' :: b), r)
      rw [splitFirst2NL, if_neg (fun hand => hc hand.1)]
      have ih' : splitFirst2NL (c2 :: (l'' ++ '\n' :: t)) =
          some (c2 :: (l'' ++ '\n' :: b), r) := ihr
      rw [ih']

/-- The wire form of a well-formed block followed by a remainder is split at
exactly the block's separator. -/
theorem splitFirst2NL_joinNl :
    ∀ (lines : List (List Char)), lines ≠ [] → (∀ l ∈ lines, wfLine l = true) →
      ∀ s, splitFirst2NL (joinNl lines ++ '\n' :: '\n' :: s) = some (joinNl lines, s) := by
  intro lines
  induction lines with
  | nil => intro hne _ _; exact absurd rfl hne
  | cons l rest ih =>
    intro _ hwf s
    have hwl := hwf l (List.mem_cons_self _ _)
    have hlnl := wfLine_noNl hwl
    cases rest with
    | nil =>
      show splitFirst2NL (l ++ '\n' :: '\n' :: s) = some (l, s)
      exact splitFirst2NL_line l hlnl s
    | cons l2 rest' =>
      have hwf' : ∀ x ∈ l2 :: rest', wfLine x = true :=
        fun x hm => hwf x (List.mem_cons_of_mem _ hm)
      have hrec := ih (by simp) hwf' s
      rw [show joinNl (l :: l2 :: rest') = l ++ '\n' :: joinNl (l2 :: rest') from rfl]
      rw [List.append_assoc]
      have hhead : (joinNl (l2 :: rest') ++ '\n' :: '\n' :: s).head? ≠ some '\n' := by
        have hwl2 := hwf' l2 (List.mem_cons_self _ _)
        obtain ⟨c0, l2', he⟩ : ∃ c0 l2', l2 = c0 :: l2' := by
          cases hx : l2 with
          | nil => exact absurd hx (wfLine_nonempty hwl2)
          | cons a b => exact ⟨a, b, rfl⟩
        have hc0 : c0 ≠ '\n' := wfLine_noNl hwl2 c0 (by rw [he]; exact List.mem_cons_self _ _)
        have hexp : ∃ y, joinNl (l2 :: rest') = l2 ++ y := by
          cases rest' with
          | nil => exact ⟨[], by simp [joinNl]⟩
          | cons l3 rest'' => exact ⟨'\n' :: joinNl (l3 :: rest''), rfl⟩
        obtain ⟨y, hy⟩ := hexp
        rw [hy, he]
        simp [hc0]
      have := splitFirst2NL_prepend_line l hlnl
        (joinNl (l2 :: rest') ++ '\n' :: '\n' :: s)
        (joinNl (l2 :: rest')) s hrec hhead
      rw [List.cons_append, this]

/-- Splitting a newline-free text on newlines yields that single line. -/
theorem splitNl_noNl :
    ∀ (l : List Char), (∀ c ∈ l, c ≠ '\n') → splitNl l = [l] := by
  intro l
  induction l with
  | nil => intro _; rfl
  | cons c rest ih =>
    intro hl
    rw [splitNl, if_neg (hl c (List.mem_cons_self _ _))]
    rw [ih (fun x hm => hl x (List.mem_cons_of_mem _ hm))]
    simp

/-- Splitting a newline-free line, a newline, and a remainder yields the line
followed by the split of the remainder. -/
theorem splitNl_append_nl :
    ∀ (l : List Char), (∀ c ∈ l, c ≠ '\n') →
      ∀ t, splitNl (l ++ '\n' :: t) = l :: splitNl t := by
  intro l
  induction l with
  | nil =>
    intro _ t
    rw [List.nil_append, splitNl, if_pos rfl]
  | cons c rest ih =>
    intro hl t
    show splitNl (c :: (rest ++ '\n' :: t)) = (c :: rest) :: splitNl t
    rw [splitNl, if_neg (hl c (List.mem_cons_self _ _))]
    rw [ih (fun x hm => hl x (List.mem_cons_of_mem _ hm)) t]
    simp

/-- `split("\n")` recovers the lines of a newline-joined well-formed block. -/
theorem splitNl_joinNl :
    ∀ (lines : List (List Char)), lines ≠ [] → (∀ l ∈ lines, wfLine l = true) →
      splitNl (joinNl lines) = lines := by
  intro lines
  induction lines with
  | nil => intro hne _; exact absurd rfl hne
  | cons l rest ih =>
    intro _ hwf
    have hlnl := wfLine_noNl (hwf l (List.mem_cons_self _ _))
    cases rest with
    | nil =>
      show splitNl l = [l]
      exact splitNl_noNl l hlnl
    | cons l2 rest' =>
      show splitNl (l ++ '\n' :: joinNl (l2 :: rest')) = l :: l2 :: rest'
      rw [splitNl_append_nl l hlnl]
      rw [ih (by simp) (fun x hm => hwf x (List.mem_cons_of_mem _ hm))]

/-- The newline-joined form of a well-formed block holds no CR. -/
theorem joinNl_noCR :
    ∀ (lines : List (List Char)), (∀ l ∈ lines, wfLine l = true) →
      '\r' ∉ joinNl lines := by
  intro lines
  induction lines with
  | nil => intro _ hm; simp [joinNl] at hm
  | cons l rest ih =>
    intro hwf hm
    have hlcr := wfLine_noCr (hwf l (List.mem_cons_self _ _))
    cases rest with
    | nil => exact hlcr '\r' hm rfl
    | cons l2 rest' =>
      rw [show joinNl (l :: l2 :: rest') = l ++ '\n' :: joinNl (l2 :: rest') from rfl] at hm
      rcases List.mem_append.mp hm with hm | hm
      · exact hlcr '\r' hm rfl
      · rcases List.mem_cons.mp hm with hm | hm
        · exact absurd hm.symm (by decide)
        · exact ih (fun x hx => hwf x (List.mem_cons_of_mem _ hx)) hm

/-- The wire form of well-formed blocks holds no CR. -/
theorem serializeBlocks_noCR :
    ∀ (bs : List (List (List Char))), (∀ b ∈ bs, wfBlock b = true) →
      '\r' ∉ serializeBlocks bs := by
  intro bs
  induction bs with
  | nil => intro _ hm; simp [serializeBlocks] at hm
  | cons b rest ih =>
    intro hwf hm
    rw [serializeBlocks, List.map_cons, List.flatten_cons] at hm
    rcases List.mem_append.mp hm with hm | hm
    · rw [serializeBlock] at hm
      rcases List.mem_append.mp hm with hm | hm
      · exact joinNl_noCR b (wfBlock_lines (hwf b (List.mem_cons_self _ _))) hm
      · simp at hm
    · exact ih (fun x hx => hwf x (List.mem_cons_of_mem _ hx)) hm

/-- On the wire form of a well-formed block, the block handler emits exactly
its event. -/
theorem handleBlock_wf (jp : String → Option JValue) (lines : List (List Char))
    (hwf : wfBlock lines = true) :
    handleBlock jp (joinNl lines) = some (blockEvt jp lines) := by
  rw [handleBlock,
    splitNl_joinNl lines (wfBlock_nonempty hwf) (wfBlock_lines hwf)]
  have hne : (blockScan lines).2 ≠ [] := by
    rw [blockScan_snd]
    obtain ⟨l, hl, hd⟩ := wfBlock_data hwf
    intro hmap
    have : lines.filter (fun l => isPre dataColon l) = [] := by
      cases hx : lines.filter (fun l => isPre dataColon l) with
      | nil => rfl
      | cons a as => rw [hx] at hmap; simp at hmap
    rw [List.filter_eq_nil_iff] at this
    exact absurd hd (by simpa using this l hl)
  rw [if_neg (by simpa [List.isEmpty_iff] using hne)]
  rfl

/-- Running the loop on serialized well-formed blocks followed by a
separator-free remainder yields exactly one event per block, in order, and
retains the remainder as the leftover buffer. -/
theorem sseLoop_serialize (jp : String → Option JValue) :
    ∀ (bs : List (List (List Char))) (pending : List Char),
      (∀ b ∈ bs, wfBlock b = true) → splitFirst2NL pending = none →
      sseLoop jp (serializeBlocks bs ++ pending) = (pending, bs.map (blockEvt jp)) := by
  intro bs
  induction bs with
  | nil =>
    intro pending _ hp
    rw [show serializeBlocks [] ++ pending = pending from by simp [serializeBlocks]]
    rw [sseLoop_none jp hp]
    rfl
  | cons b rest ih =>
    intro pending hwf hp
    have hwb := hwf b (List.mem_cons_self _ _)
    have hser : serializeBlocks (b :: rest) ++ pending =
        joinNl b ++ '\n' :: '\n' :: (serializeBlocks rest ++ pending) := by
      rw [serializeBlocks, List.map_cons, List.flatten_cons, serializeBlock]
      rw [List.append_assoc, List.append_assoc]
      rfl
    rw [hser]
    have hsplit := splitFirst2NL_joinNl b (wfBlock_nonempty hwb) (wfBlock_lines hwb)
      (serializeBlocks rest ++ pending)
    rw [sseLoop_some jp hsplit]
    rw [ih pending (fun x hm => hwf x (List.mem_cons_of_mem _ hm)) hp]
    rw [handleBlock_wf jp b hwb]
    simp

/-- Claim C3 (parser chunking-invariance): for every JSON parser, every
sequence of well-formed SSE blocks, every separator-free CR-free trailing
remainder, and every division of the concatenated wire bytes into chunks,
the read loop emits the same events in the same order as feeding the whole
sequence as one chunk — exactly one event per block, in block order — and
the bytes after the last separator are retained as the leftover buffer with
no event synthesized for them. -/
theorem c3_sse_chunking_invariance
    (jp : String → Option JValue)
    (bs : List (List (List Char))) (pending : List Char)
    (chunks : List (List Char))
    (hwf : ∀ b ∈ bs, wfBlock b = true)
    (hpend1 : splitFirst2NL pending = none)
    (hpend2 : '\r' ∉ pending)
    (hjoin : chunks.flatten = serializeBlocks bs ++ pending) :
    sseRun jp [] chunks = sseRun jp [] [serializeBlocks bs ++ pending]
    ∧ (sseRun jp [] chunks).2 = bs.map (blockEvt jp)
    ∧ (sseRun jp [] chunks).2.length = bs.length
    ∧ (sseRun jp [] chunks).1 = pending := by
  have hnoCR : '\r' ∉ chunks.flatten := by
    rw [hjoin]
    intro hm
    rcases List.mem_append.mp hm with hm | hm
    · exact serializeBlocks_noCR bs hwf hm
    · exact hpend2 hm
  have hno2 : '\r' ∉ serializeBlocks bs ++ pending := hjoin ▸ hnoCR
  have h1 : sseRun jp [] chunks = sseLoop jp (serializeBlocks bs ++ pending) := by
    rw [sseRun_eq_join jp chunks [] (by simp) hnoCR rfl]
    rw [List.nil_append, hjoin]
  have h2 : sseRun jp [] [serializeBlocks bs ++ pending] =
      sseLoop jp (serializeBlocks bs ++ pending) := by
    rw [sseRun_eq_join jp [serializeBlocks bs ++ pending] [] (by simp)
      (by simpa using hno2) rfl]
    rw [List.nil_append, show ([serializeBlocks bs ++ pending] : List (List Char)).flatten
      = serializeBlocks bs ++ pending from by simp]
  have hcanon := sseLoop_serialize jp bs pending hwf hpend1
  refine ⟨h1.trans h2.symm, ?_, ?_, ?_⟩
  · rw [h1, hcanon]
  · rw [h1, hcanon]
    simp
  · rw [h1, hcanon]

/-- Witness for claim C3 at a concrete input: two well-formed blocks plus a
dangling remainder, divided into five chunks that cut across block
boundaries. -/
theorem c3_sse_chunking_invariance_witness :
    sseRun jsonLit []
        (["data: h", "i\n", "\nevent: TOK", "EN\ndata: 2\n\nta", "il"].map String.toList) =
      sseRun jsonLit []
        [serializeBlocks [["data: hi".toList], ["event: TOKEN".toList, "data: 2".toList]]
          ++ "tail".toList]
    ∧ (sseRun jsonLit []
        (["data: h", "i\n", "\nevent: TOK", "EN\ndata: 2\n\nta", "il"].map String.toList)).2 =
      [["data: hi".toList], ["event: TOKEN".toList, "data: 2".toList]].map (blockEvt jsonLit)
    ∧ (sseRun jsonLit []
        (["data: h", "i\n", "\nevent: TOK", "EN\ndata: 2\n\nta", "il"].map String.toList)).2.length =
      ([["data: hi".toList], ["event: TOKEN".toList, "data: 2".toList]] :
        List (List (List Char))).length
    ∧ (sseRun jsonLit []
        (["data: h", "i\n", "\nevent: TOK", "EN\ndata: 2\n\nta", "il"].map String.toList)).1 =
      "tail".toList :=
  c3_sse_chunking_invariance jsonLit
    [["data: hi".toList], ["event: TOKEN".toList, "data: 2".toList]]
    "tail".toList
    (["data: h", "i\n", "\nevent: TOK", "EN\ndata: 2\n\nta", "il"].map String.toList)
    (by decide) (by decide) (by decide) (by decide)

/-- A block with some `data:` line has a nonempty data-line accumulator. -/
theorem blockScan_data_nonempty {lines : List (List Char)}
    (hdata : ∃ l ∈ lines, isPre dataColon l = true) :
    (blockScan lines).2 ≠ [] := by
  rw [blockScan_snd]
  obtain ⟨l, hl, hd⟩ := hdata
  intro hmap
  have hfil : lines.filter (fun l => isPre dataColon l) = [] := by
    cases hx : lines.filter (fun l => isPre dataColon l) with
    | nil => rfl
    | cons a as => rw [hx] at hmap; simp at hmap
  rw [List.filter_eq_nil_iff] at hfil
  exact absurd hd (by simpa using hfil l hl)

/-- Claim C9 (implicit, event-name normalization): whenever a block emits an
event, the delivered name is the text after the `event:` head of the last
such line, whitespace-trimmed and lowercased; with no `event:` line the name
defaults to `message`; concretely, a server line `event: TOKEN` is delivered
as the name `token`. -/
theorem c9_event_name_normalization :
    (∀ (jp : String → Option JValue) (block : List Char) (e : String) (d : JValue),
      handleBlock jp block = some (e, d) →
        e = String.mk (specEventName (splitNl block)))
    ∧ (∀ (jp : String → Option JValue) (block : List Char) (e : String) (d : JValue),
      handleBlock jp block = some (e, d) →
        (splitNl block).filter (fun l => isPre evColon l) = [] →
        e = "message")
    ∧ (∀ jp : String → Option JValue,
        handleBlock jp ("event: TOKEN".toList ++ '\n' :: "data: 1".toList) =
          some ("token", jsonOrRaw jp "1")) := by
  have main : ∀ (jp : String → Option JValue) (block : List Char) (e : String) (d : JValue),
      handleBlock jp block = some (e, d) →
        e = String.mk (specEventName (splitNl block)) := by
    intro jp block e d h
    rw [handleBlock] at h
    by_cases hemp : (blockScan (splitNl block)).2.isEmpty
    · rw [if_pos hemp] at h; simp at h
    · rw [if_neg hemp] at h
      simp only [Option.some.injEq, Prod.mk.injEq] at h
      rw [← h.1, blockScan_fst]
  refine ⟨main, ?_, ?_⟩
  · intro jp block e d h hfil
    rw [main jp block e d h, specEventName, hfil]
    rfl
  · intro jp
    rfl

/-- Witness for claim C9 at a concrete block. -/
theorem c9_event_name_normalization_witness :
    handleBlock jsonLit ("event: TOKEN".toList ++ '\n' :: "data: 1".toList) =
      some ("token", jsonOrRaw jsonLit "1")
    ∧ "token" = String.mk (specEventName
        (splitNl ("event: TOKEN".toList ++ '\n' :: "data: 1".toList)))
    ∧ "message" = String.mk (specEventName (splitNl "data: 1".toList)) := by
  refine ⟨c9_event_name_normalization.2.2 jsonLit, ?_, ?_⟩
  · exact c9_event_name_normalization.1 jsonLit
      ("event: TOKEN".toList ++ '\n' :: "data: 1".toList) "token" (jsonOrRaw jsonLit "1")
      (c9_event_name_normalization.2.2 jsonLit)
  · exact c9_event_name_normalization.2.1 jsonLit "data: 1".toList "message"
      (jsonOrRaw jsonLit "1") rfl (by decide)

/-- Claim C4 (malformed payload safety): for every block with a `data:` line
whose joined payload text fails JSON parsing, the parser still emits exactly
one event for the block, carrying the payload `{raw: <payload text>}`; the
event is neither dropped nor turned into a thrown error. -/
theorem c4_malformed_payload_raw
    (jp : String → Option JValue) (block : List Char)
    (hdata : ∃ l ∈ splitNl block, isPre dataColon l = true)
    (hbad : jp (String.mk (specDataText (splitNl block))) = none) :
    handleBlock jp block =
      some (String.mk (specEventName (splitNl block)),
        JValue.obj [("raw", JValue.str (String.mk (specDataText (splitNl block))))]) := by
  have hne := blockScan_data_nonempty hdata
  rw [handleBlock, if_neg (by simpa [List.isEmpty_iff] using hne)]
  have hdat : String.mk (List.intercalate ['\n'] (blockScan (splitNl block)).2) =
      String.mk (specDataText (splitNl block)) := by
    rw [blockScan_snd, specDataText]
  rw [blockScan_fst, hdat, jsonOrRaw, hbad]

/-- Witness for claim C4 at a concrete block whose payload is not JSON. -/
theorem c4_malformed_payload_raw_witness :
    handleBlock jsonLit "data: no pe".toList =
      some (String.mk (specEventName (splitNl "data: no pe".toList)),
        JValue.obj [("raw", JValue.str (String.mk (specDataText (splitNl "data: no pe".toList))))]) :=
  c4_malformed_payload_raw jsonLit "data: no pe".toList (by decide) rfl

/-- Appending a delta at the placeholder index of the optimistic pair. -/
theorem applyDelta_at_last (base : List Msg) (u a : Msg) (ha : a.role = .assistant)
    (delta : String) :
    applyDelta (base.length + 1) delta (base ++ [u, a]) =
      base ++ [u, { a with content := a.content ++ delta }] := by
  have hlen : (base ++ [u, a]).length = base.length + 2 := by simp
  have hidx : clampIdx (base.length + 1) (base ++ [u, a]).length = base.length + 1 := by
    rw [clampIdx, hlen]; omega
  have hget : (base ++ [u, a])[base.length + 1]? = some a := by
    rw [List.getElem?_append_right (by omega)]
    simp
  simp only [applyDelta, hidx, hget, ha, if_pos]
  rw [List.set_append_right _ _ (by omega)]
  simp

/-- Replacing the message at the placeholder index of the optimistic pair. -/
theorem replaceAssistant_at_last (base : List Msg) (u a m' : Msg)
    (ha : a.role = .assistant) :
    replaceAssistant (base.length + 1) m' (base ++ [u, a]) = base ++ [u, m'] := by
  have hlen : (base ++ [u, a]).length = base.length + 2 := by simp
  have hidx : clampIdx (base.length + 1) (base ++ [u, a]).length = base.length + 1 := by
    rw [clampIdx, hlen]; omega
  have hget : (base ++ [u, a])[base.length + 1]? = some a := by
    rw [List.getElem?_append_right (by omega)]
    simp
  simp only [replaceAssistant, hidx, hget, ha, if_pos]
  rw [List.set_append_right _ _ (by omega)]
  simp

/-- Case shape of the conversation-id write guard: either nothing happens,
or a truthy value differing from the turn-start id is written and recorded. -/
theorem cidWrite_shape (c0 : Option JValue) (field : Option JValue) (st : OrchState) :
    ((cidWrite c0 field st).2 = [] ∧ (cidWrite c0 field st).1 = st)
    ∨ ∃ v, field = some v ∧ jsTruthy v = true ∧ jsEqCid v c0 = false
        ∧ (cidWrite c0 field st).2 = [TraceAction.setCid v]
        ∧ (cidWrite c0 field st).1 = { st with conversationId := some v } := by
  cases field with
  | none => exact Or.inl ⟨rfl, rfl⟩
  | some v =>
    by_cases hguard : (jsTruthy v && !(jsEqCid v c0)) = true
    · right
      refine ⟨v, rfl, ?_, ?_, ?_, ?_⟩
      · exact (Bool.and_eq_true_iff.mp hguard).1
      · have := (Bool.and_eq_true_iff.mp hguard).2
        simpa using this
      · simp [cidWrite, hguard]
      · simp [cidWrite, hguard]
    · left
      constructor
      · simp [cidWrite, hguard]
      · simp [cidWrite, hguard]

/-- The state parts of the conversation-id write other than the id itself
are untouched. -/
theorem cidWrite_only_cid (c0 : Option JValue) (field : Option JValue) (st : OrchState) :
    (cidWrite c0 field st).1.messages = st.messages
    ∧ (cidWrite c0 field st).1.loading = st.loading
    ∧ (cidWrite c0 field st).1.q = st.q
    ∧ (cidWrite c0 field st).1.apiOK = st.apiOK := by
  rcases cidWrite_shape c0 field st with ⟨_, hst⟩ | ⟨v, _, _, _, _, hst⟩ <;>
    rw [hst] <;> exact ⟨rfl, rfl, rfl, rfl⟩

/-- A successful fallback body writes at most one conversation-id action and
no transport actions. -/
theorem fallbackTry_acts (ctx : TurnCtx) (fb : FbResponse) (st : OrchState)
    {st' : OrchState} {acts : List TraceAction}
    (h : fallbackTry ctx fb st = .ok (st', acts)) :
    acts = [] ∨ ∃ v, acts = [TraceAction.setCid v] := by
  rw [fallbackTry] at h
  by_cases hok : !fb.ok
  · rw [if_pos hok] at h; simp at h
  · rw [if_neg hok] at h
    simp only [Except.ok.injEq, Prod.mk.injEq] at h
    have hacts : (cidWrite ctx.turnStartCid (jGet fb.body "conversation_id") st).2 = acts :=
      h.2
    rcases cidWrite_shape ctx.turnStartCid (jGet fb.body "conversation_id") st with
      ⟨he, _⟩ | ⟨v, _, _, _, he, _⟩
    · rw [he] at hacts
      exact Or.inl hacts.symm
    · rw [he] at hacts
      exact Or.inr ⟨v, hacts.symm⟩

/-- Shape of one `abortAndFallback` run: the context is marked aborted with
one more fallback issued, and the trace is the abort request, the fallback
request, then at most a conversation-id write. -/
theorem runFallback_shape (ctx : TurnCtx) (fb : FbResponse) (st : OrchState) :
    (runFallback ctx fb st).2.1 = { ctx with aborted := true, fbCount := ctx.fbCount + 1 }
    ∧ ∃ acts, (runFallback ctx fb st).2.2 =
        [TraceAction.abortReq, TraceAction.fallbackReq] ++ acts
      ∧ (acts = [] ∨ ∃ v, acts = [TraceAction.setCid v]) := by
  rw [runFallback]
  cases hft : fallbackTry ctx fb st with
  | error msg => exact ⟨rfl, [], rfl, Or.inl rfl⟩
  | ok p =>
    obtain ⟨st', acts⟩ := p
    exact ⟨rfl, acts, rfl, fallbackTry_acts ctx fb st hft⟩

/-- A token event with no usable delta is a complete no-op: the component
state, the turn context (in particular `gotFirstToken`) and the trace are
unchanged. -/
theorem onSSE_empty_token (ctx : TurnCtx) (data : JValue) (st : OrchState)
    (h : deltaOf data = "") :
    onSSE ctx "token" data st = (st, ctx, []) := by
  rw [onSSE]
  simp [h]

/-- Inert events leave the turn context and the trace unchanged. -/
theorem foldl_inert (fb : Nat → FbResponse) :
    ∀ (pre : List ExtEvent), (∀ e ∈ pre, InertEv e) →
      ∀ (st : OrchState) (ctx : TurnCtx) (tr : List TraceAction),
        ∃ st', pre.foldl (turnStep fb) (st, ctx, tr) = (st', ctx, tr) := by
  intro pre
  induction pre with
  | nil => intro _ st ctx tr; exact ⟨st, rfl⟩
  | cons e rest ih =>
    intro hpre st ctx tr
    obtain ⟨n, d, he, hcase⟩ := hpre e (List.mem_cons_self _ _)
    subst he
    rw [List.foldl_cons]
    have hstep : ∃ st1, turnStep fb (st, ctx, tr) (ExtEvent.sse n d) = (st1, ctx, tr) := by
      by_cases hab : ctx.aborted
      · exact ⟨st, by simp [turnStep, hab]⟩
      · rcases hcase with ⟨hnt, hnm⟩ | ⟨hnt, hd⟩
        · refine ⟨(onSSE ctx n d st).1, ?_⟩
          have honctx : (onSSE ctx n d st).2.1 = ctx ∧ (onSSE ctx n d st).2.2 = [] := by
            rw [onSSE]
            have h1 : (n == "meta") = false := by
              simp only [beq_eq_false_iff_ne, ne_eq]; exact hnm
            have h2 : (n == "token") = false := by
              simp only [beq_eq_false_iff_ne, ne_eq]; exact hnt
            rw [if_neg (by simp [h1]), if_neg (by simp [h2])]
            by_cases hdone : n == "done" <;> simp [hdone]
          simp only [turnStep, hab, Bool.false_eq_true, if_false, honctx.1, honctx.2,
            List.append_nil]
        · subst hnt
          refine ⟨st, ?_⟩
          simp only [turnStep, hab, Bool.false_eq_true, if_false,
            onSSE_empty_token ctx d st hd, List.append_nil]
    obtain ⟨st1, hstep⟩ := hstep
    rw [hstep]
    exact ih (fun x hx => hpre x (List.mem_cons_of_mem _ hx)) st1 ctx tr

/-- The SSE handler leaves the context unchanged except for possibly setting
`gotFirstToken`. -/
theorem onSSE_ctx (ctx : TurnCtx) (ev : String) (data : JValue) (st : OrchState) :
    (onSSE ctx ev data st).2.1 = ctx
    ∨ (onSSE ctx ev data st).2.1 = { ctx with gotFirstToken := true } := by
  rw [onSSE]
  by_cases h1 : (ev == "meta") = true
  · rw [if_pos h1]
    exact Or.inl rfl
  · rw [if_neg h1]
    by_cases h2 : (ev == "token") = true
    · rw [if_pos h2]
      by_cases hd : (deltaOf data == "") = true
      · rw [if_pos hd]
        exact Or.inl rfl
      · rw [if_neg hd]
        exact Or.inr rfl
    · rw [if_neg h2]
      by_cases h3 : (ev == "done") = true
      · rw [if_pos h3]
        exact Or.inl rfl
      · rw [if_neg h3]
        exact Or.inl rfl

/-- A token event with a non-empty string delta sets `gotFirstToken`. -/
theorem onSSE_token_life (ctx : TurnCtx) (d : JValue) (st : OrchState)
    (hd : deltaOf d ≠ "") :
    (onSSE ctx "token" d st).2.1 = { ctx with gotFirstToken := true } := by
  rw [onSSE]
  rw [if_neg (by simp), if_pos (by simp)]
  rw [if_neg (by simpa using hd)]

/-- Each turn step leaves the context unchanged, sets `gotFirstToken`, or
marks the abort with one more fallback. -/
theorem turnStep_ctx (fb : Nat → FbResponse) (s : OrchState × TurnCtx × List TraceAction)
    (e : ExtEvent) :
    (turnStep fb s e).2.1 = s.2.1
    ∨ (turnStep fb s e).2.1 = { s.2.1 with gotFirstToken := true }
    ∨ (turnStep fb s e).2.1 =
        { s.2.1 with aborted := true, fbCount := s.2.1.fbCount + 1 } := by
  cases e with
  | sse n d =>
    by_cases hab : s.2.1.aborted = true
    · rw [turnStep]
      rw [if_pos hab]
      exact Or.inl rfl
    · rw [turnStep]
      rw [if_neg hab]
      rcases onSSE_ctx s.2.1 n d s.1 with h | h
      · exact Or.inl h
      · exact Or.inr (Or.inl h)
  | watchdogFire =>
    by_cases hg : s.2.1.gotFirstToken = true
    · rw [turnStep, if_pos hg]
      exact Or.inl rfl
    · rw [turnStep, if_neg hg]
      exact Or.inr (Or.inr (runFallback_shape s.2.1 (fb s.2.1.fbCount) s.1).1)
  | hardFire => exact Or.inl rfl
  | streamDone => exact Or.inl rfl
  | streamError =>
    exact Or.inr (Or.inr (runFallback_shape s.2.1 (fb s.2.1.fbCount) s.1).1)

/-- `gotFirstToken` is never cleared during a turn. -/
theorem foldl_gFT_mono (fb : Nat → FbResponse) :
    ∀ (events : List ExtEvent) (s : OrchState × TurnCtx × List TraceAction),
      s.2.1.gotFirstToken = true →
      (events.foldl (turnStep fb) s).2.1.gotFirstToken = true := by
  intro events
  induction events with
  | nil => intro s h; exact h
  | cons e rest ih =>
    intro s h
    rw [List.foldl_cons]
    refine ih _ ?_
    rcases turnStep_ctx fb s e with h' | h' | h' <;> rw [h'] <;> simpa using h

/-- An SSE delivery never changes the abort mark. -/
theorem turnStep_sse_aborted (fb : Nat → FbResponse)
    (s : OrchState × TurnCtx × List TraceAction) (n : String) (d : JValue) :
    (turnStep fb s (ExtEvent.sse n d)).2.1.aborted = s.2.1.aborted := by
  by_cases hab : s.2.1.aborted = true
  · rw [turnStep, if_pos hab]
  · rw [turnStep, if_neg hab]
    rcases onSSE_ctx s.2.1 n d s.1 with h | h <;> rw [h]

/-- After a schedule of SSE deliveries containing a token event with a
non-empty string delta, `gotFirstToken` is set. -/
theorem foldl_life (fb : Nat → FbResponse) :
    ∀ (pre : List ExtEvent), (∀ e ∈ pre, ∃ n d, e = ExtEvent.sse n d) →
      (∃ d, ExtEvent.sse "token" d ∈ pre ∧ deltaOf d ≠ "") →
      ∀ s : OrchState × TurnCtx × List TraceAction, s.2.1.aborted = false →
        (pre.foldl (turnStep fb) s).2.1.gotFirstToken = true := by
  intro pre
  induction pre with
  | nil =>
    intro _ hlife s _
    obtain ⟨d, hmem, _⟩ := hlife
    simp at hmem
  | cons e rest ih =>
    intro hsse hlife s hab
    rw [List.foldl_cons]
    obtain ⟨d, hmem, hd⟩ := hlife
    rcases List.mem_cons.mp hmem with he | hmem'
    · subst he
      refine foldl_gFT_mono fb rest _ ?_
      rw [turnStep, if_neg (by rw [hab]; simp)]
      simp only [onSSE_token_life s.2.1 d s.1 hd]
    · obtain ⟨n, d', he⟩ := hsse e (List.mem_cons_self _ _)
      subst he
      refine ih (fun x hx => hsse x (List.mem_cons_of_mem _ hx)) ⟨d, hmem', hd⟩ _ ?_
      rw [turnStep_sse_aborted fb s n d', hab]

/-- Claim C2 as amended: the first-token watchdog is functionally disarmed
only by a token event carrying a non-empty string delta — after such an
event, the watchdog expiry is a complete no-op for the turn (a `meta` event
alone does not prevent the fallback; see the counterexample). -/
theorem c2_watchdog_disarmed_by_token (fb : Nat → FbResponse) (st : OrchState)
    (pre rest : List ExtEvent)
    (hsse : ∀ e ∈ pre, ∃ n d, e = ExtEvent.sse n d)
    (hlife : ∃ d, ExtEvent.sse "token" d ∈ pre ∧ deltaOf d ≠ "") :
    send fb (pre ++ ExtEvent.watchdogFire :: rest) st = send fb (pre ++ rest) st := by
  have key : ∀ (st2 : OrchState) (cid : Option JValue) (aidx : Nat)
      (tr : List TraceAction),
      (pre ++ ExtEvent.watchdogFire :: rest).foldl (turnStep fb)
          (st2, ⟨cid, aidx, false, false, 0⟩, tr) =
        (pre ++ rest).foldl (turnStep fb) (st2, ⟨cid, aidx, false, false, 0⟩, tr) := by
    intro st2 cid aidx tr
    rw [List.foldl_append, List.foldl_append, List.foldl_cons]
    have hgft := foldl_life fb pre hsse hlife (st2, ⟨cid, aidx, false, false, 0⟩, tr) rfl
    rw [show turnStep fb
        (pre.foldl (turnStep fb) (st2, ⟨cid, aidx, false, false, 0⟩, tr))
        ExtEvent.watchdogFire =
        pre.foldl (turnStep fb) (st2, ⟨cid, aidx, false, false, 0⟩, tr) from by
      rw [turnStep, if_pos hgft]]
  rw [send, send]
  by_cases hg : (jsTrim st.q == "" || st.loading || st.apiOK == some false) = true
  · rw [if_pos hg, if_pos hg]
  · rw [if_neg hg, if_neg hg]
    simp only [key]

/-- Counterexample to claim C2 as stated: a turn that observes a `meta`
event (metadata arrival, an "event indicating life") before the first-token
expiry still triggers the watchdog fallback — in fact the fallback request
is issued twice (`2 ≠ 0`: the watchdog was not disarmed by the meta event). -/
theorem c2_meta_does_not_disarm_counterexample :
    countFallbacks (send (fun _ => { ok := true, body := JValue.obj [], statusText := "200 OK" })
      [ExtEvent.sse "meta" (JValue.obj [("conversation_id", JValue.str "abc")]),
       ExtEvent.watchdogFire, ExtEvent.streamError]
      { apiOK := some true, conversationId := none, messages := [], q := "Hello",
        loading := false, lastCitations := JValue.arr [], lastMeta := none }).2 = 2 := rfl

/-- Witness for the amended claim C2: with a non-empty token delta observed
before the watchdog expiry, the expiry changes nothing about the turn. -/
theorem c2_watchdog_disarmed_by_token_witness :
    send (fun _ => { ok := true, body := JValue.obj [], statusText := "200 OK" })
      ([ExtEvent.sse "token" (JValue.obj [("delta", JValue.str "Hi")])] ++
        ExtEvent.watchdogFire :: [ExtEvent.streamDone])
      { apiOK := some true, conversationId := none, messages := [], q := "Hello",
        loading := false, lastCitations := JValue.arr [], lastMeta := none } =
    send (fun _ => { ok := true, body := JValue.obj [], statusText := "200 OK" })
      ([ExtEvent.sse "token" (JValue.obj [("delta", JValue.str "Hi")])] ++
        [ExtEvent.streamDone])
      { apiOK := some true, conversationId := none, messages := [], q := "Hello",
        loading := false, lastCitations := JValue.arr [], lastMeta := none } :=
  c2_watchdog_disarmed_by_token _ _ _ _
    (by
      intro e he
      simp only [List.mem_singleton] at he
      exact ⟨"token", JValue.obj [("delta", JValue.str "Hi")], he⟩)
    ⟨JValue.obj [("delta", JValue.str "Hi")], List.mem_cons_self _ _, by decide⟩

/-- Claim C5 (Scenario A): from an empty conversation, submitting "Hello"
while the stream delivers meta with conversation id "abc", the deltas "Hi"
and " there", and done, ends the turn with exactly one user message
"Hello", one assistant message "Hi there", stored conversation id "abc",
and the loading flag cleared. -/
theorem c5_scenario_a_streaming_turn :
    (send (fun _ => { ok := true, body := JValue.obj [], statusText := "200 OK" })
      [ExtEvent.sse "meta" (JValue.obj [("conversation_id", JValue.str "abc")]),
       ExtEvent.sse "token" (JValue.obj [("delta", JValue.str "Hi")]),
       ExtEvent.sse "token" (JValue.obj [("delta", JValue.str " there")]),
       ExtEvent.sse "done" (JValue.obj []),
       ExtEvent.streamDone]
      { apiOK := some true, conversationId := none, messages := [], q := "Hello",
        loading := false, lastCitations := JValue.arr [], lastMeta := none }).1.messages =
      [{ role := Role.user, content := "Hello", citations := none },
       { role := Role.assistant, content := "Hi there", citations := none }]
    ∧ (send (fun _ => { ok := true, body := JValue.obj [], statusText := "200 OK" })
      [ExtEvent.sse "meta" (JValue.obj [("conversation_id", JValue.str "abc")]),
       ExtEvent.sse "token" (JValue.obj [("delta", JValue.str "Hi")]),
       ExtEvent.sse "token" (JValue.obj [("delta", JValue.str " there")]),
       ExtEvent.sse "done" (JValue.obj []),
       ExtEvent.streamDone]
      { apiOK := some true, conversationId := none, messages := [], q := "Hello",
        loading := false, lastCitations := JValue.arr [], lastMeta := none }).1.conversationId =
      some (JValue.str "abc")
    ∧ (send (fun _ => { ok := true, body := JValue.obj [], statusText := "200 OK" })
      [ExtEvent.sse "meta" (JValue.obj [("conversation_id", JValue.str "abc")]),
       ExtEvent.sse "token" (JValue.obj [("delta", JValue.str "Hi")]),
       ExtEvent.sse "token" (JValue.obj [("delta", JValue.str " there")]),
       ExtEvent.sse "done" (JValue.obj []),
       ExtEvent.streamDone]
      { apiOK := some true, conversationId := none, messages := [], q := "Hello",
        loading := false, lastCitations := JValue.arr [], lastMeta := none }).1.loading =
      false :=
  ⟨rfl, rfl, rfl⟩

/-- Claim C6 as amended: a submission starts a turn exactly when the
trimmed input is non-empty, no turn is in flight, and the service is not
known-unreachable.  Unknown reachability does not block the send (see the
counterexample to the claim as stated). -/
theorem c6_send_guard (fb : Nat → FbResponse) (sched : List ExtEvent) (st : OrchState) :
    ((jsTrim st.q == "" || st.loading || st.apiOK == some false) = true →
      send fb sched st = (st, []))
    ∧ (jsTrim st.q ≠ "" → st.loading = false → st.apiOK ≠ some false →
      (send fb [] st).1 = { st with
        loading := true, q := "",
        messages := st.messages ++
          [{ role := Role.user, content := st.q }, { role := Role.assistant, content := "" }] }) := by
  constructor
  · intro hg
    rw [send, if_pos hg]
  · intro h1 h2 h3
    have hg : (jsTrim st.q == "" || st.loading || st.apiOK == some false) = false := by
      rw [beq_eq_false_iff_ne.mpr h1, h2, beq_eq_false_iff_ne.mpr h3]
      rfl
    rw [send, if_neg (by rw [hg]; simp)]
    rfl

/-- Counterexample to claim C6 as stated: with reachability still unknown
(the probe has not answered), `send` is not disabled — the turn starts, the
optimistic message pair is appended and the loading state is set. -/
theorem c6_unknown_reachability_counterexample :
    (send (fun _ => { ok := true, body := JValue.obj [], statusText := "200 OK" })
      [ExtEvent.streamDone]
      { apiOK := none, conversationId := none, messages := [], q := "Hi",
        loading := false, lastCitations := JValue.arr [], lastMeta := none }).1.messages =
      [{ role := Role.user, content := "Hi", citations := none },
       { role := Role.assistant, content := "", citations := none }]
    ∧ (send (fun _ => { ok := true, body := JValue.obj [], statusText := "200 OK" })
      [ExtEvent.streamDone]
      { apiOK := none, conversationId := none, messages := [], q := "Hi",
        loading := false, lastCitations := JValue.arr [], lastMeta := none }).1.loading = true :=
  ⟨rfl, rfl⟩

/-- Witness for the amended claim C6: both guard directions at concrete
inputs — a loading turn blocks the send, and a non-empty input with
successful probe starts one. -/
theorem c6_send_guard_witness :
    send (fun _ => { ok := true, body := JValue.obj [], statusText := "200 OK" })
      [ExtEvent.streamDone]
      { apiOK := some true, conversationId := none, messages := [], q := "Hi",
        loading := true, lastCitations := JValue.arr [], lastMeta := none } =
      ({ apiOK := some true, conversationId := none, messages := [], q := "Hi",
         loading := true, lastCitations := JValue.arr [], lastMeta := none }, [])
    ∧ (send (fun _ => { ok := true, body := JValue.obj [], statusText := "200 OK" }) []
      { apiOK := some true, conversationId := none, messages := [], q := "Hi",
        loading := false, lastCitations := JValue.arr [], lastMeta := none }).1 =
      { apiOK := some true, conversationId := none,
        messages := [{ role := Role.user, content := "Hi", citations := none },
          { role := Role.assistant, content := "", citations := none }],
        q := "", loading := true, lastCitations := JValue.arr [], lastMeta := none } := by
  constructor
  · exact (c6_send_guard _ _ _).1 (by decide)
  · have := (c6_send_guard (fun _ => { ok := true, body := JValue.obj [], statusText := "200 OK" })
      ([] : List ExtEvent)
      { apiOK := some true, conversationId := none, messages := [], q := "Hi",
        loading := false, lastCitations := JValue.arr [], lastMeta := none }).2
      (by decide) rfl (by decide)
    rw [this]
    rfl

/-- Fallback counting distributes over trace concatenation. -/
theorem countFallbacks_append (a b : List TraceAction) :
    countFallbacks (a ++ b) = countFallbacks a + countFallbacks b := by
  simp [countFallbacks, List.filter_append]

/-- Each `abortAndFallback` run contributes exactly one fallback request. -/
theorem countFallbacks_piece (acts : List TraceAction)
    (h : acts = [] ∨ ∃ v, acts = [TraceAction.setCid v]) :
    countFallbacks ([TraceAction.abortReq, TraceAction.fallbackReq] ++ acts) = 1 := by
  rcases h with h | ⟨v, h⟩ <;> subst h <;> rfl

/-- Trace shape of a turn whose schedule observes no token and no meta
event before the watchdog expiry: the watchdog runs `abortAndFallback`, the
abort rejects the streaming promise, and the rejection handler runs
`abortAndFallback` a second time. -/
theorem fold_silent_shape (fb : Nat → FbResponse) (pre : List ExtEvent)
    (hpre : ∀ e ∈ pre, InertEv e)
    (st2 : OrchState) (cid : Option JValue) (aidx : Nat) :
    ∃ acts1 acts2,
      ((pre ++ [ExtEvent.watchdogFire, ExtEvent.streamError]).foldl (turnStep fb)
        (st2, ⟨cid, aidx, false, false, 0⟩, [])).2.2 =
      ([TraceAction.abortReq, TraceAction.fallbackReq] ++ acts1) ++
        ([TraceAction.abortReq, TraceAction.fallbackReq] ++ acts2)
      ∧ (acts1 = [] ∨ ∃ v, acts1 = [TraceAction.setCid v])
      ∧ (acts2 = [] ∨ ∃ v, acts2 = [TraceAction.setCid v]) := by
  obtain ⟨st', hpref⟩ := foldl_inert fb pre hpre st2 ⟨cid, aidx, false, false, 0⟩ []
  rw [List.foldl_append, hpref, List.foldl_cons]
  have hfire : turnStep fb (st', ⟨cid, aidx, false, false, 0⟩, ([] : List TraceAction))
      ExtEvent.watchdogFire =
      ((runFallback ⟨cid, aidx, false, false, 0⟩ (fb 0) st').1,
        (runFallback ⟨cid, aidx, false, false, 0⟩ (fb 0) st').2.1,
        (runFallback ⟨cid, aidx, false, false, 0⟩ (fb 0) st').2.2) := by
    rw [turnStep, if_neg (by simp)]
    rfl
  rw [hfire]
  obtain ⟨hctx1, acts1, htr1, hsh1⟩ :=
    runFallback_shape ⟨cid, aidx, false, false, 0⟩ (fb 0) st'
  rw [List.foldl_cons]
  have hse : turnStep fb
      ((runFallback ⟨cid, aidx, false, false, 0⟩ (fb 0) st').1,
        (runFallback ⟨cid, aidx, false, false, 0⟩ (fb 0) st').2.1,
        (runFallback ⟨cid, aidx, false, false, 0⟩ (fb 0) st').2.2)
      ExtEvent.streamError =
      ((runFallback (runFallback ⟨cid, aidx, false, false, 0⟩ (fb 0) st').2.1
          (fb (runFallback ⟨cid, aidx, false, false, 0⟩ (fb 0) st').2.1.fbCount)
          (runFallback ⟨cid, aidx, false, false, 0⟩ (fb 0) st').1).1,
        (runFallback (runFallback ⟨cid, aidx, false, false, 0⟩ (fb 0) st').2.1
          (fb (runFallback ⟨cid, aidx, false, false, 0⟩ (fb 0) st').2.1.fbCount)
          (runFallback ⟨cid, aidx, false, false, 0⟩ (fb 0) st').1).2.1,
        (runFallback ⟨cid, aidx, false, false, 0⟩ (fb 0) st').2.2 ++
          (runFallback (runFallback ⟨cid, aidx, false, false, 0⟩ (fb 0) st').2.1
            (fb (runFallback ⟨cid, aidx, false, false, 0⟩ (fb 0) st').2.1.fbCount)
            (runFallback ⟨cid, aidx, false, false, 0⟩ (fb 0) st').1).2.2) := by
    rw [turnStep]
  rw [hse]
  obtain ⟨hctx2, acts2, htr2, hsh2⟩ :=
    runFallback_shape (runFallback ⟨cid, aidx, false, false, 0⟩ (fb 0) st').2.1
      (fb (runFallback ⟨cid, aidx, false, false, 0⟩ (fb 0) st').2.1.fbCount)
      (runFallback ⟨cid, aidx, false, false, 0⟩ (fb 0) st').1
  refine ⟨acts1, acts2, ?_, hsh1, hsh2⟩
  rw [List.foldl_nil]
  show (runFallback ⟨cid, aidx, false, false, 0⟩ (fb 0) st').2.2 ++ _ = _
  rw [htr1, htr2]

/-- Claim C1 as amended: in every turn where no `token` and no `meta` event
is observed within the first-token bound, the watchdog aborts the streaming
transport before issuing the fallback request — but the abort also rejects
the streaming promise, whose catch handler runs `abortAndFallback` again,
so the fallback request is issued exactly twice for the turn, not once. -/
theorem c1_silent_bound_two_fallbacks (fb : Nat → FbResponse) (st : OrchState)
    (pre : List ExtEvent)
    (hq : jsTrim st.q ≠ "") (hl : st.loading = false) (ha : st.apiOK ≠ some false)
    (hpre : ∀ e ∈ pre, ∃ n d, e = ExtEvent.sse n d ∧ n ≠ "token" ∧ n ≠ "meta") :
    countFallbacks (send fb (pre ++ [ExtEvent.watchdogFire, ExtEvent.streamError]) st).2 = 2
    ∧ TraceAction.abortReq ∈
      ((send fb (pre ++ [ExtEvent.watchdogFire, ExtEvent.streamError]) st).2.takeWhile
        (fun a => !isFallbackReq a)) := by
  have hg : (jsTrim st.q == "" || st.loading || st.apiOK == some false) = false := by
    rw [beq_eq_false_iff_ne.mpr hq, hl, beq_eq_false_iff_ne.mpr ha]
    rfl
  rw [send, if_neg (by rw [hg]; simp)]
  simp only []
  obtain ⟨acts1, acts2, htr, hsh1, hsh2⟩ := fold_silent_shape fb pre
    (fun e he => by
      obtain ⟨n, d, hh, h1, h2⟩ := hpre e he
      exact ⟨n, d, hh, Or.inl ⟨h1, h2⟩⟩)
    { st with
      loading := true,
      messages := st.messages ++
        [({ role := Role.user, content := st.q } : Msg),
          ({ role := Role.assistant, content := "" } : Msg)] }
    st.conversationId
    ((st.messages ++
      [({ role := Role.user, content := st.q } : Msg),
        ({ role := Role.assistant, content := "" } : Msg)]).length - 1)
  rw [htr]
  constructor
  · rw [countFallbacks_append, countFallbacks_piece acts1 hsh1, countFallbacks_piece acts2 hsh2]
  · rw [List.cons_append, List.cons_append]
    rw [List.takeWhile_cons]
    simp [isFallbackReq]

/-- Counterexample to claim C1 as stated: in a turn where the stream stays
silent until the first-token bound, the fallback request is issued twice,
not exactly once — once by the watchdog callback and once by the rejection
handler of the aborted streaming promise. -/
theorem c1_exactly_once_counterexample :
    countFallbacks (send (fun _ => { ok := true, body := JValue.obj [], statusText := "200 OK" })
      [ExtEvent.watchdogFire, ExtEvent.streamError]
      { apiOK := some true, conversationId := none, messages := [], q := "X",
        loading := false, lastCitations := JValue.arr [], lastMeta := none }).2 = 2
    ∧ countFallbacks (send (fun _ => { ok := true, body := JValue.obj [], statusText := "200 OK" })
      [ExtEvent.watchdogFire, ExtEvent.streamError]
      { apiOK := some true, conversationId := none, messages := [], q := "X",
        loading := false, lastCitations := JValue.arr [], lastMeta := none }).2 ≠ 1 :=
  ⟨rfl, by decide⟩

/-- Witness for the amended claim C1 at a concrete silent turn. -/
theorem c1_silent_bound_two_fallbacks_witness :
    countFallbacks (send (fun _ => { ok := true, body := JValue.obj [], statusText := "200 OK" })
      ([] ++ [ExtEvent.watchdogFire, ExtEvent.streamError])
      { apiOK := some true, conversationId := none, messages := [], q := "X",
        loading := false, lastCitations := JValue.arr [], lastMeta := none }).2 = 2
    ∧ TraceAction.abortReq ∈
      ((send (fun _ => { ok := true, body := JValue.obj [], statusText := "200 OK" })
        ([] ++ [ExtEvent.watchdogFire, ExtEvent.streamError])
        { apiOK := some true, conversationId := none, messages := [], q := "X",
          loading := false, lastCitations := JValue.arr [], lastMeta := none }).2.takeWhile
        (fun a => !isFallbackReq a)) :=
  c1_silent_bound_two_fallbacks
    (fun _ => { ok := true, body := JValue.obj [], statusText := "200 OK" })
    { apiOK := some true, conversationId := none, messages := [], q := "X",
      loading := false, lastCitations := JValue.arr [], lastMeta := none }
    [] (by decide) rfl (by decide) (fun e he => absurd he (List.not_mem_nil e))

/-- The SSE handler either leaves the message list unchanged or applies the
event's delta at the placeholder index. -/
theorem onSSE_messages (ctx : TurnCtx) (ev : String) (data : JValue) (st : OrchState) :
    (onSSE ctx ev data st).1.messages = st.messages
    ∨ (onSSE ctx ev data st).1.messages =
        applyDelta ctx.assistantIdx (deltaOf data) st.messages := by
  rw [onSSE]
  by_cases h1 : (ev == "meta") = true
  · rw [if_pos h1]
    left
    have hc := (cidWrite_only_cid ctx.turnStartCid (jGet data "conversation_id") st).1
    show (match jGet data "meta" with
      | some v => if jsTruthy v then { (match jGet data "citations" with
          | some (.arr xs) =>
            { (cidWrite ctx.turnStartCid (jGet data "conversation_id") st).1 with
              lastCitations := .arr xs }
          | _ => (cidWrite ctx.turnStartCid (jGet data "conversation_id") st).1) with
          lastMeta := some v }
        else (match jGet data "citations" with
          | some (.arr xs) =>
            { (cidWrite ctx.turnStartCid (jGet data "conversation_id") st).1 with
              lastCitations := .arr xs }
          | _ => (cidWrite ctx.turnStartCid (jGet data "conversation_id") st).1)
      | none => (match jGet data "citations" with
          | some (.arr xs) =>
            { (cidWrite ctx.turnStartCid (jGet data "conversation_id") st).1 with
              lastCitations := .arr xs }
          | _ => (cidWrite ctx.turnStartCid (jGet data "conversation_id") st).1)).messages
      = st.messages
    split <;> (try split) <;> (try split) <;> simp_all
  · rw [if_neg h1]
    by_cases h2 : (ev == "token") = true
    · rw [if_pos h2]
      by_cases hd : (deltaOf data == "") = true
      · rw [if_pos hd]
        exact Or.inl rfl
      · rw [if_neg hd]
        exact Or.inr rfl
    · rw [if_neg h2]
      by_cases h3 : (ev == "done") = true
      · rw [if_pos h3]
        left
        split <;> (try split) <;> rfl
      · rw [if_neg h3]
        exact Or.inl rfl

/-- A successful fallback body replaces the placeholder with the trimmed
answer message. -/
theorem fallbackTry_messages (ctx : TurnCtx) (fbr : FbResponse) (st : OrchState)
    {st' : OrchState} {acts : List TraceAction}
    (h : fallbackTry ctx fbr st = .ok (st', acts)) :
    st'.messages = replaceAssistant ctx.assistantIdx
      ({ role := Role.assistant,
         content := jsTrim (match jGet fbr.body "answer" with
           | some (JValue.str s) => s
           | _ => ""),
         citations := some (jsOrArr (jGet fbr.body "citations")) } : Msg) st.messages := by
  rw [fallbackTry] at h
  by_cases hok : !fbr.ok
  · rw [if_pos hok] at h; simp at h
  · rw [if_neg hok] at h
    simp only [Except.ok.injEq, Prod.mk.injEq] at h
    rw [← h.1]
    have hc := (cidWrite_only_cid ctx.turnStartCid (jGet fbr.body "conversation_id") st).1
    show replaceAssistant ctx.assistantIdx _
      ((cidWrite ctx.turnStartCid (jGet fbr.body "conversation_id") st).1.messages) = _
    rw [hc]

/-- Each `abortAndFallback` run replaces the placeholder with an assistant
message — the answer on success, the inline error on failure — and clears
the loading flag. -/
theorem runFallback_messages (ctx : TurnCtx) (fbr : FbResponse) (st : OrchState) :
    (∃ m' : Msg, m'.role = Role.assistant
      ∧ (runFallback ctx fbr st).1.messages =
          replaceAssistant ctx.assistantIdx m' st.messages)
    ∧ (runFallback ctx fbr st).1.loading = false := by
  rw [runFallback]
  cases hft : fallbackTry ctx fbr st with
  | error msg =>
    exact ⟨⟨{ role := Role.assistant, content := "⚠ " ++ errShown msg, citations := none },
      rfl, rfl⟩, rfl⟩
  | ok p =>
    obtain ⟨st', acts⟩ := p
    refine ⟨⟨{ role := Role.assistant,
               content := jsTrim (match jGet fbr.body "answer" with
                 | some (JValue.str s) => s
                 | _ => ""),
               citations := some (jsOrArr (jGet fbr.body "citations")) }, rfl, ?_⟩, rfl⟩
    show st'.messages = _
    exact fallbackTry_messages ctx fbr st hft

/-- The placeholder index and the captured conversation id in the turn
context are never changed by a step. -/
theorem turnStep_ctx_fixed (fb : Nat → FbResponse)
    (s : OrchState × TurnCtx × List TraceAction) (e : ExtEvent) :
    (turnStep fb s e).2.1.assistantIdx = s.2.1.assistantIdx
    ∧ (turnStep fb s e).2.1.turnStartCid = s.2.1.turnStartCid := by
  rcases turnStep_ctx fb s e with h | h | h <;> rw [h] <;> exact ⟨rfl, rfl⟩

/-- One step preserves the optimistic message-pair shape: a fixed prefix, the
user message, and some assistant message at the placeholder index. -/
theorem turnStep_shape (fb : Nat → FbResponse) (e : ExtEvent)
    (s : OrchState × TurnCtx × List TraceAction) (base : List Msg) (u a : Msg)
    (hm : s.1.messages = base ++ [u, a]) (ha : a.role = Role.assistant)
    (hi : s.2.1.assistantIdx = base.length + 1) :
    ∃ a' : Msg, a'.role = Role.assistant ∧
      (turnStep fb s e).1.messages = base ++ [u, a'] := by
  cases e with
  | sse n d =>
    by_cases hab : s.2.1.aborted = true
    · rw [turnStep, if_pos hab]
      exact ⟨a, ha, hm⟩
    · rw [turnStep, if_neg hab]
      rcases onSSE_messages s.2.1 n d s.1 with h | h
      · refine ⟨a, ha, ?_⟩
        show (onSSE s.2.1 n d s.1).1.messages = _
        rw [h, hm]
      · refine ⟨{ a with content := a.content ++ deltaOf d }, ha, ?_⟩
        show (onSSE s.2.1 n d s.1).1.messages = _
        rw [h, hi, hm, applyDelta_at_last base u a ha]
  | watchdogFire =>
    by_cases hg : s.2.1.gotFirstToken = true
    · rw [turnStep, if_pos hg]
      exact ⟨a, ha, hm⟩
    · rw [turnStep, if_neg hg]
      obtain ⟨⟨m', hrole, hrepl⟩, _⟩ := runFallback_messages s.2.1 (fb s.2.1.fbCount) s.1
      refine ⟨m', hrole, ?_⟩
      show (runFallback s.2.1 (fb s.2.1.fbCount) s.1).1.messages = _
      rw [hrepl, hi, hm, replaceAssistant_at_last base u a m' ha]
  | hardFire => exact ⟨a, ha, hm⟩
  | streamDone => exact ⟨a, ha, hm⟩
  | streamError =>
    rw [turnStep]
    obtain ⟨⟨m', hrole, hrepl⟩, _⟩ := runFallback_messages s.2.1 (fb s.2.1.fbCount) s.1
    refine ⟨m', hrole, ?_⟩
    show (runFallback s.2.1 (fb s.2.1.fbCount) s.1).1.messages = _
    rw [hrepl, hi, hm, replaceAssistant_at_last base u a m' ha]

/-- A whole schedule preserves the optimistic message-pair shape. -/
theorem foldl_shape (fb : Nat → FbResponse) :
    ∀ (events : List ExtEvent) (s : OrchState × TurnCtx × List TraceAction)
      (base : List Msg) (u a : Msg),
      s.1.messages = base ++ [u, a] → a.role = Role.assistant →
      s.2.1.assistantIdx = base.length + 1 →
      ∃ a' : Msg, a'.role = Role.assistant
        ∧ (events.foldl (turnStep fb) s).1.messages = base ++ [u, a']
        ∧ (events.foldl (turnStep fb) s).2.1.assistantIdx = base.length + 1 := by
  intro events
  induction events with
  | nil => intro s base u a hm ha hi; exact ⟨a, ha, hm, hi⟩
  | cons e rest ih =>
    intro s base u a hm ha hi
    rw [List.foldl_cons]
    obtain ⟨a', ha', hm'⟩ := turnStep_shape fb e s base u a hm ha hi
    have hi' : (turnStep fb s e).2.1.assistantIdx = base.length + 1 := by
      rw [(turnStep_ctx_fixed fb s e).1, hi]
    exact ih _ base u a' hm' ha' hi'

/-- On the overloaded response, `abortAndFallback` raises the error
internally, catches it, replaces the placeholder with the inline `⚠` text
and clears the loading flag — nothing escapes. -/
theorem runFallback_overloaded (ctx : TurnCtx) (st : OrchState) :
    runFallback ctx fbOverloaded st =
      ({ st with
          messages := replaceAssistant ctx.assistantIdx
            ⟨Role.assistant, "⚠ overloaded", none⟩ st.messages,
          loading := false },
        { ctx with aborted := true, fbCount := ctx.fbCount + 1 },
        [TraceAction.abortReq, TraceAction.fallbackReq]) := rfl

/-- Claim C7: a turn whose fallback requests all return HTTP 500 with
`detail: overloaded` ends with the assistant placeholder holding the inline
error text `⚠ overloaded`, the loading flag cleared, and the error not
re-thrown past the orchestrator: `fallbackTry` raises it, `abortAndFallback`
absorbs it, and `send` returns normally. -/
theorem c7_fallback_failure_inline (fb : Nat → FbResponse) (st : OrchState)
    (pre : List ExtEvent)
    (hq : jsTrim st.q ≠ "") (hl : st.loading = false) (ha : st.apiOK ≠ some false)
    (hfb : ∀ i, fb i = fbOverloaded) :
    ((send fb (pre ++ [ExtEvent.streamError]) st).1.messages).getLast? =
      some ⟨Role.assistant, "⚠ overloaded", none⟩
    ∧ (send fb (pre ++ [ExtEvent.streamError]) st).1.loading = false
    ∧ (∀ (ctx : TurnCtx) (st' : OrchState),
        fallbackTry ctx (fb 0) st' = Except.error "overloaded") := by
  have hg : (jsTrim st.q == "" || st.loading || st.apiOK == some false) = false := by
    rw [beq_eq_false_iff_ne.mpr hq, hl, beq_eq_false_iff_ne.mpr ha]
    rfl
  rw [send, if_neg (by rw [hg]; simp)]
  simp only []
  have hi0 : ((st.messages ++
      [({ role := Role.user, content := st.q } : Msg),
        ({ role := Role.assistant, content := "" } : Msg)]).length - 1) =
      st.messages.length + 1 := by
    simp
  rw [List.foldl_append]
  obtain ⟨a', ha', hm', hi'⟩ := foldl_shape fb pre
    ({ st with
        loading := true,
        messages := st.messages ++
          [({ role := Role.user, content := st.q } : Msg),
            ({ role := Role.assistant, content := "" } : Msg)] },
      ⟨st.conversationId,
        (st.messages ++
          [({ role := Role.user, content := st.q } : Msg),
            ({ role := Role.assistant, content := "" } : Msg)]).length - 1,
        false, false, 0⟩, [])
    st.messages ({ role := Role.user, content := st.q } : Msg)
    ({ role := Role.assistant, content := "" } : Msg) rfl rfl hi0
  rw [List.foldl_cons, List.foldl_nil, turnStep, hfb, runFallback_overloaded]
  refine ⟨?_, rfl, ?_⟩
  · show (replaceAssistant _ _ _).getLast? = _
    rw [hi', hm', replaceAssistant_at_last _ _ _ _ ha']
    rw [show st.messages ++ [({ role := Role.user, content := st.q } : Msg),
        (⟨Role.assistant, "⚠ overloaded", none⟩ : Msg)] =
      (st.messages ++ [({ role := Role.user, content := st.q } : Msg)]) ++
        [(⟨Role.assistant, "⚠ overloaded", none⟩ : Msg)] from by simp]
    rw [List.getLast?_concat]
  · intro ctx st'
    rw [hfb 0]
    rfl

/-- Witness for claim C7: Scenario C at concrete inputs. -/
theorem c7_fallback_failure_inline_witness :
    ((send (fun _ => fbOverloaded) ([] ++ [ExtEvent.streamError])
      { apiOK := some true, conversationId := none, messages := [], q := "Y",
        loading := false, lastCitations := JValue.arr [], lastMeta := none }).1.messages).getLast? =
      some ⟨Role.assistant, "⚠ overloaded", none⟩
    ∧ (send (fun _ => fbOverloaded) ([] ++ [ExtEvent.streamError])
      { apiOK := some true, conversationId := none, messages := [], q := "Y",
        loading := false, lastCitations := JValue.arr [], lastMeta := none }).1.loading = false
    ∧ (∀ (ctx : TurnCtx) (st' : OrchState),
        fallbackTry ctx ((fun _ => fbOverloaded) 0) st' = Except.error "overloaded") :=
  c7_fallback_failure_inline (fun _ => fbOverloaded)
    { apiOK := some true, conversationId := none, messages := [], q := "Y",
      loading := false, lastCitations := JValue.arr [], lastMeta := none }
    [] (by decide) rfl (by decide) (fun _ => rfl)

/-- Claim C10 (implicit): a token event with a missing, non-string or empty
delta is a complete no-op — component state, turn context (in particular
`gotFirstToken`) and trace are unchanged — and a stream delivering only
such token events within the first-token bound still triggers the watchdog
fallback. -/
theorem c10_empty_token_noop :
    (∀ (ctx : TurnCtx) (data : JValue) (st : OrchState), deltaOf data = "" →
      onSSE ctx "token" data st = (st, ctx, []))
    ∧ (∀ (fb : Nat → FbResponse) (st : OrchState) (pre : List ExtEvent),
        jsTrim st.q ≠ "" → st.loading = false → st.apiOK ≠ some false →
        (∀ e ∈ pre, ∃ d, e = ExtEvent.sse "token" d ∧ deltaOf d = "") →
        0 < countFallbacks
          (send fb (pre ++ [ExtEvent.watchdogFire, ExtEvent.streamError]) st).2) := by
  constructor
  · exact fun ctx data st h => onSSE_empty_token ctx data st h
  · intro fb st pre hq hl ha hpre
    have hg : (jsTrim st.q == "" || st.loading || st.apiOK == some false) = false := by
      rw [beq_eq_false_iff_ne.mpr hq, hl, beq_eq_false_iff_ne.mpr ha]
      rfl
    rw [send, if_neg (by rw [hg]; simp)]
    simp only []
    obtain ⟨acts1, acts2, htr, hsh1, hsh2⟩ := fold_silent_shape fb pre
      (fun e he => by
        obtain ⟨d, hh, hd⟩ := hpre e he
        exact ⟨"token", d, hh, Or.inr ⟨rfl, hd⟩⟩)
      { st with
        loading := true,
        messages := st.messages ++
          [({ role := Role.user, content := st.q } : Msg),
            ({ role := Role.assistant, content := "" } : Msg)] }
      st.conversationId
      ((st.messages ++
        [({ role := Role.user, content := st.q } : Msg),
          ({ role := Role.assistant, content := "" } : Msg)]).length - 1)
    rw [htr, countFallbacks_append, countFallbacks_piece acts1 hsh1,
      countFallbacks_piece acts2 hsh2]
    decide

/-- Witness for claim C10: the three empty-delta payload forms are no-ops
on a concrete state, and a concrete stream of only empty token events
within the bound still falls back. -/
theorem c10_empty_token_noop_witness :
    onSSE ⟨none, 1, false, false, 0⟩ "token" (JValue.obj [])
      { apiOK := some true, conversationId := none, messages := [], q := "",
        loading := true, lastCitations := JValue.arr [], lastMeta := none } =
      ({ apiOK := some true, conversationId := none, messages := [], q := "",
         loading := true, lastCitations := JValue.arr [], lastMeta := none },
        ⟨none, 1, false, false, 0⟩, [])
    ∧ onSSE ⟨none, 1, false, false, 0⟩ "token" (JValue.obj [("delta", JValue.num 3)])
      { apiOK := some true, conversationId := none, messages := [], q := "",
        loading := true, lastCitations := JValue.arr [], lastMeta := none } =
      ({ apiOK := some true, conversationId := none, messages := [], q := "",
         loading := true, lastCitations := JValue.arr [], lastMeta := none },
        ⟨none, 1, false, false, 0⟩, [])
    ∧ onSSE ⟨none, 1, false, false, 0⟩ "token" (JValue.obj [("delta", JValue.str "")])
      { apiOK := some true, conversationId := none, messages := [], q := "",
        loading := true, lastCitations := JValue.arr [], lastMeta := none } =
      ({ apiOK := some true, conversationId := none, messages := [], q := "",
         loading := true, lastCitations := JValue.arr [], lastMeta := none },
        ⟨none, 1, false, false, 0⟩, [])
    ∧ 0 < countFallbacks (send (fun _ => fbOverloaded)
        ([ExtEvent.sse "token" (JValue.obj [("delta", JValue.str "")])] ++
          [ExtEvent.watchdogFire, ExtEvent.streamError])
        { apiOK := some true, conversationId := none, messages := [], q := "X",
          loading := false, lastCitations := JValue.arr [], lastMeta := none }).2 := by
  refine ⟨?_, ?_, ?_, ?_⟩
  · exact c10_empty_token_noop.1 _ _ _ rfl
  · exact c10_empty_token_noop.1 _ _ _ rfl
  · exact c10_empty_token_noop.1 _ _ _ rfl
  · refine c10_empty_token_noop.2 (fun _ => fbOverloaded) _ _ (by decide) rfl (by decide) ?_
    intro e he
    simp only [List.mem_singleton] at he
    exact ⟨JValue.obj [("delta", JValue.str "")], he, rfl⟩

theorem cidAfter_append (a b : List TraceAction) :
    ∀ c0, cidAfter c0 (a ++ b) = cidAfter (cidAfter c0 a) b := by
  induction a with
  | nil => intro c0; rfl
  | cons x rest ih =>
    intro c0
    rw [List.cons_append, cidAfter, cidAfter, ih]

/-- Replaying a trace never clears a present id. -/
theorem cidAfter_isSome (tr : List TraceAction) :
    ∀ c0 : Option JValue, c0.isSome = true → (cidAfter c0 tr).isSome = true := by
  induction tr with
  | nil => intro c0 h; exact h
  | cons a rest ih =>
    intro c0 h
    rw [cidAfter]
    refine ih _ ?_
    cases a with
    | setCid v => rfl
    | abortReq => exact h
    | fallbackReq => exact h

/-- The SSE handler either leaves the stored id and the trace untouched, or
writes a truthy id differing from the turn-start id and records it. -/
theorem onSSE_cid_acts (ctx : TurnCtx) (ev : String) (data : JValue) (st : OrchState) :
    ((onSSE ctx ev data st).1.conversationId = st.conversationId
      ∧ (onSSE ctx ev data st).2.2 = [])
    ∨ ∃ v, (onSSE ctx ev data st).1.conversationId = some v
        ∧ (onSSE ctx ev data st).2.2 = [TraceAction.setCid v]
        ∧ jsTruthy v = true ∧ jsEqCid v ctx.turnStartCid = false := by
  rw [onSSE]
  by_cases h1 : (ev == "meta") = true
  · rw [if_pos h1]
    have hkeep : ∀ w : OrchState,
        ((match jGet data "meta" with
          | some v => if jsTruthy v then { (match jGet data "citations" with
              | some (.arr xs) => { w with lastCitations := .arr xs }
              | _ => w) with lastMeta := some v }
            else (match jGet data "citations" with
              | some (.arr xs) => { w with lastCitations := .arr xs }
              | _ => w)
          | none => (match jGet data "citations" with
              | some (.arr xs) => { w with lastCitations := .arr xs }
              | _ => w)) : OrchState).conversationId = w.conversationId := by
      intro w
      split <;> (try split) <;> (try split) <;> rfl
    rcases cidWrite_shape ctx.turnStartCid (jGet data "conversation_id") st with
      ⟨hacts, hst⟩ | ⟨v, _, hv1, hv2, hacts, hst⟩
    · left
      constructor
      · show ((match jGet data "meta" with
          | some v => if jsTruthy v then { (match jGet data "citations" with
              | some (.arr xs) =>
                { (cidWrite ctx.turnStartCid (jGet data "conversation_id") st).1 with
                  lastCitations := .arr xs }
              | _ => (cidWrite ctx.turnStartCid (jGet data "conversation_id") st).1) with
              lastMeta := some v }
            else (match jGet data "citations" with
              | some (.arr xs) =>
                { (cidWrite ctx.turnStartCid (jGet data "conversation_id") st).1 with
                  lastCitations := .arr xs }
              | _ => (cidWrite ctx.turnStartCid (jGet data "conversation_id") st).1)
          | none => (match jGet data "citations" with
              | some (.arr xs) =>
                { (cidWrite ctx.turnStartCid (jGet data "conversation_id") st).1 with
                  lastCitations := .arr xs }
              | _ => (cidWrite ctx.turnStartCid (jGet data "conversation_id") st).1)) :
          OrchState).conversationId = st.conversationId
        rw [hkeep, hst]
      · exact hacts
    · right
      refine ⟨v, ?_, hacts, hv1, hv2⟩
      show ((match jGet data "meta" with
        | some v => if jsTruthy v then { (match jGet data "citations" with
            | some (.arr xs) =>
              { (cidWrite ctx.turnStartCid (jGet data "conversation_id") st).1 with
                lastCitations := .arr xs }
            | _ => (cidWrite ctx.turnStartCid (jGet data "conversation_id") st).1) with
            lastMeta := some v }
          else (match jGet data "citations" with
            | some (.arr xs) =>
              { (cidWrite ctx.turnStartCid (jGet data "conversation_id") st).1 with
                lastCitations := .arr xs }
            | _ => (cidWrite ctx.turnStartCid (jGet data "conversation_id") st).1)
        | none => (match jGet data "citations" with
            | some (.arr xs) =>
              { (cidWrite ctx.turnStartCid (jGet data "conversation_id") st).1 with
                lastCitations := .arr xs }
            | _ => (cidWrite ctx.turnStartCid (jGet data "conversation_id") st).1)) :
        OrchState).conversationId = some v
      rw [hkeep, hst]
  · rw [if_neg h1]
    by_cases h2 : (ev == "token") = true
    · rw [if_pos h2]
      by_cases hd : (deltaOf data == "") = true
      · rw [if_pos hd]
        exact Or.inl ⟨rfl, rfl⟩
      · rw [if_neg hd]
        exact Or.inl ⟨rfl, rfl⟩
    · rw [if_neg h2]
      by_cases h3 : (ev == "done") = true
      · rw [if_pos h3]
        left
        constructor
        · split <;> (try split) <;> rfl
        · rfl
      · rw [if_neg h3]
        exact Or.inl ⟨rfl, rfl⟩

/-- In a successful fallback body, the stored id and the recorded actions
come from the shared conversation-id write guard. -/
theorem fallbackTry_cid (ctx : TurnCtx) (fbr : FbResponse) (st : OrchState)
    {st' : OrchState} {acts : List TraceAction}
    (h : fallbackTry ctx fbr st = .ok (st', acts)) :
    st'.conversationId =
      (cidWrite ctx.turnStartCid (jGet fbr.body "conversation_id") st).1.conversationId
    ∧ acts = (cidWrite ctx.turnStartCid (jGet fbr.body "conversation_id") st).2 := by
  rw [fallbackTry] at h
  by_cases hok : !fbr.ok
  · rw [if_pos hok] at h; simp at h
  · rw [if_neg hok] at h
    simp only [Except.ok.injEq, Prod.mk.injEq] at h
    exact ⟨h.1.symm ▸ rfl, h.2.symm⟩

/-- `abortAndFallback` either leaves the stored id untouched or writes a
truthy id differing from the turn-start id, recording it after the abort
and fallback actions. -/
theorem runFallback_cid_acts (ctx : TurnCtx) (fbr : FbResponse) (st : OrchState) :
    ((runFallback ctx fbr st).1.conversationId = st.conversationId
      ∧ (runFallback ctx fbr st).2.2 = [TraceAction.abortReq, TraceAction.fallbackReq])
    ∨ ∃ v, (runFallback ctx fbr st).1.conversationId = some v
        ∧ (runFallback ctx fbr st).2.2 =
            [TraceAction.abortReq, TraceAction.fallbackReq, TraceAction.setCid v]
        ∧ jsTruthy v = true ∧ jsEqCid v ctx.turnStartCid = false := by
  rw [runFallback]
  cases hft : fallbackTry ctx fbr st with
  | error msg => exact Or.inl ⟨rfl, rfl⟩
  | ok p =>
    obtain ⟨st', acts⟩ := p
    obtain ⟨hcid, hacts⟩ := fallbackTry_cid ctx fbr st hft
    rcases cidWrite_shape ctx.turnStartCid (jGet fbr.body "conversation_id") st with
      ⟨he, hst⟩ | ⟨v, _, hv1, hv2, he, hst⟩
    · left
      constructor
      · show st'.conversationId = st.conversationId
        rw [hcid, hst]
      · show [TraceAction.abortReq, TraceAction.fallbackReq] ++ acts = _
        rw [hacts, he]
        rfl
    · right
      refine ⟨v, ?_, ?_, hv1, hv2⟩
      · show st'.conversationId = some v
        rw [hcid, hst]
      · show [TraceAction.abortReq, TraceAction.fallbackReq] ++ acts = _
        rw [hacts, he]
        rfl

/-- The conversation-id invariant is preserved by every turn step. -/
theorem turnStep_cidInv (fb : Nat → FbResponse) (e : ExtEvent)
    (s : OrchState × TurnCtx × List TraceAction) (c0 : Option JValue)
    (h : CidInv c0 s) : CidInv c0 (turnStep fb s e) := by
  obtain ⟨h1, h2, h3⟩ := h
  have hfix : (turnStep fb s e).2.1.turnStartCid = c0 := by
    rw [(turnStep_ctx_fixed fb s e).2, h1]
  have hfall : ∀ (hstep : (turnStep fb s e).1 = (runFallback s.2.1 (fb s.2.1.fbCount) s.1).1)
      (htr : (turnStep fb s e).2.2 = s.2.2 ++ (runFallback s.2.1 (fb s.2.1.fbCount) s.1).2.2),
      CidInv c0 (turnStep fb s e) := by
    intro hstep htr
    refine ⟨hfix, ?_, ?_⟩
    · rw [hstep, htr, cidAfter_append]
      rcases runFallback_cid_acts s.2.1 (fb s.2.1.fbCount) s.1 with
        ⟨hc, ht⟩ | ⟨v, hc, ht, _, _⟩
      · rw [hc, ht, ← h2]
        rfl
      · rw [hc, ht]
        rfl
    · intro v hv
      rw [htr] at hv
      rcases List.mem_append.mp hv with hv | hv
      · exact h3 v hv
      · rcases runFallback_cid_acts s.2.1 (fb s.2.1.fbCount) s.1 with
          ⟨_, ht⟩ | ⟨w, _, ht, hw1, hw2⟩
        · rw [ht] at hv
          rcases List.mem_cons.mp hv with hx | hx
          · exact absurd hx (by simp)
          · rcases List.mem_cons.mp hx with hy | hy
            · exact absurd hy (by simp)
            · exact absurd hy (List.not_mem_nil _)
        · rw [ht] at hv
          rcases List.mem_cons.mp hv with hx | hx
          · exact absurd hx (by simp)
          · rcases List.mem_cons.mp hx with hy | hy
            · exact absurd hy (by simp)
            · rcases List.mem_cons.mp hy with hz | hz
              · have hvw : v = w := by
                  injection hz
                subst hvw
                rw [h1] at hw2
                exact ⟨hw1, hw2⟩
              · exact absurd hz (List.not_mem_nil _)
  cases e with
  | sse n d =>
    by_cases hab : s.2.1.aborted = true
    · rw [turnStep, if_pos hab]
      exact ⟨h1, h2, h3⟩
    · rw [turnStep, if_neg hab]
      have hctxfix : (onSSE s.2.1 n d s.1).2.1.turnStartCid = c0 := by
        rcases onSSE_ctx s.2.1 n d s.1 with hh | hh <;> rw [hh] <;> exact h1
      rcases onSSE_cid_acts s.2.1 n d s.1 with ⟨hc, hacts⟩ | ⟨v, hc, hacts, hv1, hv2⟩
      · refine ⟨hctxfix, ?_, ?_⟩
        · show (onSSE s.2.1 n d s.1).1.conversationId =
            cidAfter c0 (s.2.2 ++ (onSSE s.2.1 n d s.1).2.2)
          rw [hc, hacts, List.append_nil]
          exact h2
        · intro w hw
          have hw' : TraceAction.setCid w ∈ s.2.2 ++ (onSSE s.2.1 n d s.1).2.2 := hw
          rw [hacts, List.append_nil] at hw'
          exact h3 w hw'
      · refine ⟨hctxfix, ?_, ?_⟩
        · show (onSSE s.2.1 n d s.1).1.conversationId =
            cidAfter c0 (s.2.2 ++ (onSSE s.2.1 n d s.1).2.2)
          rw [hc, hacts, cidAfter_append, ← h2]
          rfl
        · intro w hw
          have hw' : TraceAction.setCid w ∈ s.2.2 ++ (onSSE s.2.1 n d s.1).2.2 := hw
          rw [hacts] at hw'
          rcases List.mem_append.mp hw' with hw'' | hw''
          · exact h3 w hw''
          · rcases List.mem_cons.mp hw'' with hz | hz
            · have hvw : w = v := by injection hz
              subst hvw
              rw [h1] at hv2
              exact ⟨hv1, hv2⟩
            · exact absurd hz (List.not_mem_nil _)
  | watchdogFire =>
    by_cases hg : s.2.1.gotFirstToken = true
    · rw [turnStep, if_pos hg]
      exact ⟨h1, h2, h3⟩
    · exact hfall (by rw [turnStep, if_neg hg]) (by rw [turnStep, if_neg hg])
  | hardFire => exact ⟨hfix, h2, h3⟩
  | streamDone => exact ⟨h1, h2, h3⟩
  | streamError => exact hfall (by rw [turnStep]) (by rw [turnStep])

/-- The conversation-id invariant holds after any schedule. -/
theorem foldl_cidInv (fb : Nat → FbResponse) :
    ∀ (events : List ExtEvent) (s : OrchState × TurnCtx × List TraceAction)
      (c0 : Option JValue), CidInv c0 s →
      CidInv c0 (events.foldl (turnStep fb) s) := by
  intro events
  induction events with
  | nil => intro s c0 h; exact h
  | cons e rest ih =>
    intro s c0 h
    rw [List.foldl_cons]
    exact ih _ c0 (turnStep_cidInv fb e s c0 h)

/-- Claim C8 as amended: the conversation identifier after a turn is the
replay of the turn's recorded writes over the identifier read at the start
of the turn; every recorded write stores a truthy server-issued value
that differs (under the loose-equality guard) from the identifier captured
at the start of the turn — not necessarily from the current one, so within
a single turn it may be written more than once; a present identifier is
never cleared by a turn; an explicit reset clears it and removes it from
durable storage; and a truthy final identifier is mirrored to durable
storage. -/
theorem c8_conversation_id_policy (fb : Nat → FbResponse) (sched : List ExtEvent)
    (st : OrchState) :
    ((send fb sched st).1.conversationId
        = cidAfter st.conversationId (send fb sched st).2
      ∧ ∀ v, TraceAction.setCid v ∈ (send fb sched st).2 →
          jsTruthy v = true ∧ jsEqCid v st.conversationId = false)
    ∧ (st.conversationId.isSome = true →
        ((send fb sched st).1.conversationId).isSome = true)
    ∧ (resetConversation st).conversationId = none
    ∧ persistEffect (resetConversation st) = none
    ∧ (∀ v, (send fb sched st).1.conversationId = some v → jsTruthy v = true →
        persistEffect (send fb sched st).1 = some v) := by
  have hmain : (send fb sched st).1.conversationId
      = cidAfter st.conversationId (send fb sched st).2
      ∧ ∀ v, TraceAction.setCid v ∈ (send fb sched st).2 →
          jsTruthy v = true ∧ jsEqCid v st.conversationId = false := by
    by_cases hg : (jsTrim st.q == "" || st.loading || st.apiOK == some false) = true
    · rw [send, if_pos hg]
      exact ⟨rfl, fun v hv => absurd hv (List.not_mem_nil _)⟩
    · rw [send, if_neg hg]
      obtain ⟨_, h2, h3⟩ := foldl_cidInv fb sched
        ({ st with
            loading := true,
            messages := st.messages ++
              [({ role := Role.user, content := st.q } : Msg),
                ({ role := Role.assistant, content := "" } : Msg)] },
          ⟨st.conversationId,
            (st.messages ++
              [({ role := Role.user, content := st.q } : Msg),
                ({ role := Role.assistant, content := "" } : Msg)]).length - 1,
            false, false, 0⟩, ([] : List TraceAction))
        st.conversationId ⟨rfl, rfl, fun v hv => absurd hv (List.not_mem_nil _)⟩
      exact ⟨h2, h3⟩
  refine ⟨hmain, ?_, rfl, rfl, ?_⟩
  · intro hsome
    rw [hmain.1]
    exact cidAfter_isSome _ _ hsome
  · intro v hv htr
    show (match (send fb sched st).1.conversationId with
      | some w => if jsTruthy w then some w else none
      | none => none) = some v
    rw [hv]
    show (if jsTruthy v then some v else none) = some v
    rw [if_pos htr]

/-- Counterexample to claim C8 as stated: in a turn whose stream carries two
meta events with distinct conversation identifiers, the guard compares each
incoming identifier against the value captured at the start of the turn, so
the identifier is written twice within the single turn, refuting the
at-most-once-per-turn part of the claim. -/
theorem c8_written_twice_counterexample :
    countSetCid (send (fun _ => { ok := true, body := JValue.obj [], statusText := "200 OK" })
      [ExtEvent.sse "meta" (JValue.obj [("conversation_id", JValue.str "a")]),
        ExtEvent.sse "meta" (JValue.obj [("conversation_id", JValue.str "b")]),
        ExtEvent.sse "done" (JValue.obj []), ExtEvent.streamDone]
      { apiOK := some true, conversationId := none, messages := [], q := "Hello",
        loading := false, lastCitations := JValue.arr [], lastMeta := none }).2 = 2
    ∧ ¬ countSetCid (send (fun _ => { ok := true, body := JValue.obj [], statusText := "200 OK" })
      [ExtEvent.sse "meta" (JValue.obj [("conversation_id", JValue.str "a")]),
        ExtEvent.sse "meta" (JValue.obj [("conversation_id", JValue.str "b")]),
        ExtEvent.sse "done" (JValue.obj []), ExtEvent.streamDone]
      { apiOK := some true, conversationId := none, messages := [], q := "Hello",
        loading := false, lastCitations := JValue.arr [], lastMeta := none }).2 ≤ 1 :=
  ⟨rfl, by decide⟩

/-- Witness for the amended claim C8 at a concrete turn that replaces an
existing identifier with a fresh server-issued one. -/
theorem c8_conversation_id_policy_witness :
    ((send (fun _ => { ok := true, body := JValue.obj [], statusText := "200 OK" })
        [ExtEvent.sse "meta" (JValue.obj [("conversation_id", JValue.str "a")]),
          ExtEvent.sse "done" (JValue.obj []), ExtEvent.streamDone]
        { apiOK := some true, conversationId := some (JValue.str "z"), messages := [],
          q := "Hello", loading := false, lastCitations := JValue.arr [],
          lastMeta := none }).1.conversationId
      = cidAfter (some (JValue.str "z"))
          (send (fun _ => { ok := true, body := JValue.obj [], statusText := "200 OK" })
            [ExtEvent.sse "meta" (JValue.obj [("conversation_id", JValue.str "a")]),
              ExtEvent.sse "done" (JValue.obj []), ExtEvent.streamDone]
            { apiOK := some true, conversationId := some (JValue.str "z"), messages := [],
              q := "Hello", loading := false, lastCitations := JValue.arr [],
              lastMeta := none }).2)
    ∧ (jsTruthy (JValue.str "a") = true
        ∧ jsEqCid (JValue.str "a") (some (JValue.str "z")) = false)
    ∧ (some (JValue.str "z") : Option JValue).isSome = true
    ∧ ((send (fun _ => { ok := true, body := JValue.obj [], statusText := "200 OK" })
        [ExtEvent.sse "meta" (JValue.obj [("conversation_id", JValue.str "a")]),
          ExtEvent.sse "done" (JValue.obj []), ExtEvent.streamDone]
        { apiOK := some true, conversationId := some (JValue.str "z"), messages := [],
          q := "Hello", loading := false, lastCitations := JValue.arr [],
          lastMeta := none }).1.conversationId).isSome = true
    ∧ (resetConversation
        { apiOK := some true, conversationId := some (JValue.str "z"), messages := [],
          q := "Hello", loading := false, lastCitations := JValue.arr [],
          lastMeta := none }).conversationId = none
    ∧ persistEffect (resetConversation
        { apiOK := some true, conversationId := some (JValue.str "z"), messages := [],
          q := "Hello", loading := false, lastCitations := JValue.arr [],
          lastMeta := none }) = none
    ∧ persistEffect (send (fun _ => { ok := true, body := JValue.obj [], statusText := "200 OK" })
        [ExtEvent.sse "meta" (JValue.obj [("conversation_id", JValue.str "a")]),
          ExtEvent.sse "done" (JValue.obj []), ExtEvent.streamDone]
        { apiOK := some true, conversationId := some (JValue.str "z"), messages := [],
          q := "Hello", loading := false, lastCitations := JValue.arr [],
          lastMeta := none }).1 = some (JValue.str "a") := by
  have h := c8_conversation_id_policy
    (fun _ => { ok := true, body := JValue.obj [], statusText := "200 OK" })
    [ExtEvent.sse "meta" (JValue.obj [("conversation_id", JValue.str "a")]),
      ExtEvent.sse "done" (JValue.obj []), ExtEvent.streamDone]
    { apiOK := some true, conversationId := some (JValue.str "z"), messages := [],
      q := "Hello", loading := false, lastCitations := JValue.arr [],
      lastMeta := none }
  refine ⟨h.1.1, ?_, rfl, h.2.1 rfl, h.2.2.1, h.2.2.2.1, ?_⟩
  · refine h.1.2 (JValue.str "a") ?_
    have htr : (send (fun _ => { ok := true, body := JValue.obj [], statusText := "200 OK" })
        [ExtEvent.sse "meta" (JValue.obj [("conversation_id", JValue.str "a")]),
          ExtEvent.sse "done" (JValue.obj []), ExtEvent.streamDone]
        { apiOK := some true, conversationId := some (JValue.str "z"), messages := [],
          q := "Hello", loading := false, lastCitations := JValue.arr [],
          lastMeta := none }).2 = [TraceAction.setCid (JValue.str "a")] := rfl
    rw [htr]
    exact List.mem_singleton.mpr rfl
  · exact h.2.2.2.2 (JValue.str "a") rfl rfl

end AIGuide
